import Mathlib

set_option maxRecDepth 2000

/-!
# Verification of `legwork/source.py` (gw-calcs)

A shallow embedding, over `List` and `ℚ`, of the classification-and-dispatch
engine of `legwork.source.Source`:

* numpy boolean-mask *compress* (`arr[mask]`) and *scatter* (`arr[mask] = vals`)
  become `maskSelect` / `maskAssign` on lists;
* the harmonic-count table construction of `create_harmonics_functions`
  (lines 138-201) becomes `harmonicsNeeded` / `harmonicsRequired`;
* `scipy.interpolate.interp1d` with `bounds_error=False` and a two-sided
  `fill_value` becomes `interp1d`;
* the SNR dispatch of `get_snr` / `get_snr_stationary` / `get_snr_evolving`
  (lines 393-575) becomes `getSnr` / `getSnrStationaryFull` / `getSnrEvolvingFull`,
  with the external closed-form SNR formulas of `legwork.snr` (not part of the
  reviewed sources) abstracted as fields of `SnrModel`.

Machine floats are modelled as exact rationals; the claims under study concern
control flow, masks and table construction, not rounding.
-/

/-- numpy boolean-mask compression `xs[mask]`: keep the entries of `xs` at the
positions where `mask` is `true`, in order. -/
def maskSelect {α : Type} : List Bool → List α → List α
  | true :: mask, x :: xs => x :: maskSelect mask xs
  | false :: mask, _ :: xs => maskSelect mask xs
  | _, _ => []

/-- numpy boolean-mask assignment `base[mask] = vals`: replace the entries of
`base` at `true` positions of `mask` by the entries of `vals`, in order. -/
def maskAssign {α : Type} : List α → List Bool → List α → List α
  | [], _, _ => []
  | base, [], _ => base
  | b :: base, m :: mask, vals =>
    if m then vals.headD b :: maskAssign base mask vals.tail
    else b :: maskAssign base mask vals

/-- Number of `true` entries of a boolean mask. -/
def trueCount : List Bool → ℕ
  | [] => 0
  | b :: l => (if b then 1 else 0) + trueCount l

theorem maskAssign_length {α : Type} :
    ∀ (base : List α) (mask : List Bool) (vals : List α),
      (maskAssign base mask vals).length = base.length := by
  intro base
  induction base with
  | nil => intro mask vals; cases mask <;> rfl
  | cons b base ih =>
    intro mask vals
    cases mask with
    | nil => rfl
    | cons m mask => by_cases hm : m <;> simp [maskAssign, hm, ih]

/-- Scatter of a compressed-and-mapped array: entry `i` of
`base[mask] = f <$> srcs[mask]` is `f srcs[i]` at `true` positions of the mask
and the old entry of `base` elsewhere. -/
theorem maskAssign_getD {α : Type} (f : α → ℚ) (d : α) :
    ∀ (srcs : List α) (base : List ℚ) (mask : List Bool) (i : ℕ),
      base.length = srcs.length → mask.length = srcs.length → i < srcs.length →
      (maskAssign base mask ((maskSelect mask srcs).map f)).getD i 0 =
        if mask.getD i false then f (srcs.getD i d) else base.getD i 0 := by
  intro srcs
  induction srcs with
  | nil => intro base mask i _ _ hi; exact absurd hi (by simp)
  | cons s srcs ih =>
    intro base mask i hb hm hi
    cases base with
    | nil => exact absurd hb (by simp)
    | cons b base =>
      cases mask with
      | nil => exact absurd hm (by simp)
      | cons m mask =>
        have hb' : base.length = srcs.length := by simpa using hb
        have hm' : mask.length = srcs.length := by simpa using hm
        cases m with
        | true =>
          cases i with
          | zero => simp [maskAssign, maskSelect]
          | succ i =>
            have hi' : i < srcs.length := by simpa using hi
            simpa [maskAssign, maskSelect] using ih base mask i hb' hm' hi'
        | false =>
          cases i with
          | zero => simp [maskAssign, maskSelect]
          | succ i =>
            have hi' : i < srcs.length := by simpa using hi
            simpa [maskAssign, maskSelect] using ih base mask i hb' hm' hi'

/-- Compress-then-scatter round trip: entry `i` of `base[mask] = full[mask]` is
`full[i]` at `true` positions and `base[i]` elsewhere. -/
theorem maskAssign_select_getD (base : List ℚ) (mask : List Bool) (full : List ℚ)
    (i : ℕ) (hb : base.length = full.length) (hm : mask.length = full.length)
    (hi : i < full.length) :
    (maskAssign base mask (maskSelect mask full)).getD i 0 =
      if mask.getD i false then full.getD i 0 else base.getD i 0 := by
  have h := maskAssign_getD (fun x : ℚ => x) 0 full base mask i hb hm hi
  simpa [List.map_id] using h

/-- Entry of a compressed list: the entry of `xs[mask]` corresponding to
original position `i` (with `mask[i] = true`) sits at the index counting the
`true`s of `mask` before `i`. -/
theorem maskSelect_getD :
    ∀ (mask : List Bool) (xs : List ℚ) (i : ℕ),
      mask.length = xs.length → i < xs.length → mask.getD i false = true →
      (maskSelect mask xs).getD (trueCount (mask.take i)) 0 = xs.getD i 0 := by
  intro mask
  induction mask with
  | nil => intro xs i hlen hi _; rw [← hlen] at hi; exact absurd hi (by simp)
  | cons m mask ih =>
    intro xs i hlen hi ht
    cases xs with
    | nil => exact absurd hi (by simp)
    | cons x xs =>
      have hlen' : mask.length = xs.length := by simpa using hlen
      cases i with
      | zero =>
        have hm : m = true := by simpa using ht
        subst hm
        simp [maskSelect, trueCount]
      | succ i =>
        have hi' : i < xs.length := by simpa using hi
        have ht' : mask.getD i false = true := by simpa using ht
        cases m with
        | true =>
          simp only [maskSelect, List.take_succ_cons, trueCount, if_pos trivial,
            List.getD_cons_succ, Nat.add_comm 1 (trueCount (mask.take i))]
          exact ih xs i hlen' hi' ht'
        | false =>
          simp only [maskSelect, List.take_succ_cons, trueCount, Bool.false_eq_true,
            if_false, Nat.zero_add]
          exact ih xs i hlen' hi' ht'

theorem getD_map_lt {α β : Type} (f : α → β) (da : α) (db : β) :
    ∀ (l : List α) (i : ℕ), i < l.length → (l.map f).getD i db = f (l.getD i da) := by
  intro l
  induction l with
  | nil => intro i hi; exact absurd hi (by simp)
  | cons x l ih =>
    intro i hi
    cases i with
    | zero => simp
    | succ i => simpa using ih i (by simpa using hi)

theorem zipWith_getD {α β γ : Type} (f : α → β → γ) (da : α) (db : β) (dc : γ) :
    ∀ (xs : List α) (ys : List β) (i : ℕ), i < xs.length → i < ys.length →
      (List.zipWith f xs ys).getD i dc = f (xs.getD i da) (ys.getD i db) := by
  intro xs
  induction xs with
  | nil => intro ys i hx _; exact absurd hx (by simp)
  | cons x xs ih =>
    intro ys i hx hy
    cases ys with
    | nil => exact absurd hy (by simp)
    | cons y ys =>
      cases i with
      | zero => simp
      | succ i =>
        simpa using ih ys i (by simpa using hx) (by simpa using hy)

theorem any_of_getD :
    ∀ (l : List Bool) (i : ℕ), i < l.length → l.getD i false = true → l.any id = true := by
  intro l
  induction l with
  | nil => intro i hi _; exact absurd hi (by simp)
  | cons b l ih =>
    intro i hi h
    cases i with
    | zero => simp_all
    | succ i =>
      have := ih i (by simpa using hi) (by simpa using h)
      simp_all

theorem getD_false_of_any_false :
    ∀ (l : List Bool) (i : ℕ), l.any id = false → l.getD i false = false := by
  intro l
  induction l with
  | nil => intro i _; simp
  | cons b l ih =>
    intro i h
    cases i with
    | zero => simp_all
    | succ i =>
      simp only [List.getD_cons_succ]
      exact ih i (by simp_all)

/-! ## `scipy.interpolate.interp1d` with `bounds_error=False`

`interp1d pts lo hi x` is linear interpolation through the points `pts`
(assumed sorted by first component), returning the fill value `lo` for queries
strictly below the first grid point and `hi` for queries strictly above the
last one, exactly as scipy's `fill_value=(lo, hi)` behaves. -/

/-- Interpolation to the right of the point `(x0, y0)`: walk the remaining
points, interpolate linearly on the segment containing `x`, and return the
upper fill value `hi` past the last point. -/
def interpGo (x0 y0 hi : ℚ) : List (ℚ × ℚ) → ℚ → ℚ
  | [], x => if x0 < x then hi else y0
  | (x1, y1) :: rest, x =>
    if x ≤ x1 then y0 + (y1 - y0) * (x - x0) / (x1 - x0)
    else interpGo x1 y1 hi rest x

def interp1d (pts : List (ℚ × ℚ)) (lo hi : ℚ) (x : ℚ) : ℚ :=
  match pts with
  | [] => lo
  | (x0, y0) :: rest => if x < x0 then lo else interpGo x0 y0 hi rest x

/-- Combined sortedness/monotonicity relation on interpolation points:
`x`-coordinates strictly increase and `y`-coordinates do not decrease. -/
def PtLe (p q : ℚ × ℚ) : Prop := p.1 < q.1 ∧ p.2 ≤ q.2

theorem interpGo_bounds :
    ∀ (rest : List (ℚ × ℚ)) (x0 y0 hi : ℚ),
      List.Chain PtLe (x0, y0) rest → y0 ≤ hi → (∀ p ∈ rest, p.2 ≤ hi) →
      ∀ x : ℚ, x0 ≤ x →
      y0 ≤ interpGo x0 y0 hi rest x ∧ interpGo x0 y0 hi rest x ≤ hi := by
  intro rest
  induction rest with
  | nil =>
    intro x0 y0 hi _ hhi _ x _
    by_cases hx : x0 < x <;> simp [interpGo, hx, hhi]
  | cons p rest ih =>
    intro x0 y0 hi hch hhi hhis x hx
    obtain ⟨x1, y1⟩ := p
    cases hch with
    | cons hR hch' =>
      obtain ⟨hx01, hy01⟩ := hR
      have hy1hi : y1 ≤ hi := hhis (x1, y1) (by simp)
      by_cases hseg : x ≤ x1
      · simp only [interpGo, if_pos hseg]
        have hd : (0 : ℚ) < x1 - x0 := by linarith
        have ht0 : (0 : ℚ) ≤ (x - x0) / (x1 - x0) :=
          div_nonneg (by linarith) (le_of_lt hd)
        have ht1 : (x - x0) / (x1 - x0) ≤ 1 := by
          rw [div_le_one hd]; linarith
        rw [mul_div_assoc]
        constructor
        · nlinarith
        · nlinarith
      · simp only [interpGo, if_neg hseg]
        have hx1 : x1 ≤ x := le_of_lt (lt_of_not_le hseg)
        have hrec := ih x1 y1 hi hch' hy1hi
          (fun p hp => hhis p (List.mem_cons_of_mem _ hp)) x hx1
        exact ⟨le_trans hy01 hrec.1, hrec.2⟩

theorem interpGo_mono :
    ∀ (rest : List (ℚ × ℚ)) (x0 y0 hi : ℚ),
      List.Chain PtLe (x0, y0) rest → y0 ≤ hi → (∀ p ∈ rest, p.2 ≤ hi) →
      ∀ x x' : ℚ, x ≤ x' →
      interpGo x0 y0 hi rest x ≤ interpGo x0 y0 hi rest x' := by
  intro rest
  induction rest with
  | nil =>
    intro x0 y0 hi _ hhi _ x x' hxx
    by_cases hx : x0 < x
    · simp [interpGo, hx, lt_of_lt_of_le hx hxx]
    · by_cases hx' : x0 < x' <;> simp [interpGo, hx, hx', hhi]
  | cons p rest ih =>
    intro x0 y0 hi hch hhi hhis x x' hxx
    obtain ⟨x1, y1⟩ := p
    cases hch with
    | cons hR hch' =>
      obtain ⟨hx01, hy01⟩ := hR
      have hy1hi : y1 ≤ hi := hhis (x1, y1) (by simp)
      have hd : (0 : ℚ) < x1 - x0 := by linarith
      by_cases hseg : x ≤ x1
      · by_cases hseg' : x' ≤ x1
        · -- both queries on the same segment: the slope is non-negative
          simp only [interpGo, if_pos hseg, if_pos hseg']
          rw [mul_div_assoc, mul_div_assoc]
          have : (x - x0) / (x1 - x0) ≤ (x' - x0) / (x1 - x0) := by
            gcongr
          nlinarith
        · -- `x` on this segment, `x'` further right
          simp only [interpGo, if_pos hseg, if_neg hseg']
          have hx1' : x1 ≤ x' := le_of_lt (lt_of_not_le hseg')
          have hval : y0 + (y1 - y0) * (x - x0) / (x1 - x0) ≤ y1 := by
            have ht1 : (x - x0) / (x1 - x0) ≤ 1 := by
              rw [div_le_one hd]; linarith
            rw [mul_div_assoc]
            nlinarith
          have hrec := interpGo_bounds rest x1 y1 hi hch' hy1hi
            (fun p hp => hhis p (List.mem_cons_of_mem _ hp)) x' hx1'
          exact le_trans hval hrec.1
      · -- both queries to the right of this segment
        have hseg' : ¬ x' ≤ x1 := fun h => hseg (le_trans hxx h)
        simp only [interpGo, if_neg hseg, if_neg hseg']
        exact ih x1 y1 hi hch' hy1hi
          (fun p hp => hhis p (List.mem_cons_of_mem _ hp)) x x' hxx

/-- Monotonicity of scipy-style linear interpolation with fill values: if the
`x` grid strictly increases, the `y` values do not decrease and lie between the
fill values, then the interpolant is monotone non-decreasing. -/
theorem interp1d_mono (pts : List (ℚ × ℚ)) (lo hi : ℚ)
    (hch : List.Chain' PtLe pts) (hlo : ∀ p ∈ pts, lo ≤ p.2)
    (hhi : ∀ p ∈ pts, p.2 ≤ hi) :
    ∀ x x' : ℚ, x ≤ x' → interp1d pts lo hi x ≤ interp1d pts lo hi x' := by
  intro x x' hxx
  match pts with
  | [] => simp [interp1d]
  | (x0, y0) :: rest =>
    have hch0 : List.Chain PtLe (x0, y0) rest := hch
    have hy0hi : y0 ≤ hi := hhi (x0, y0) (by simp)
    have hloy0 : lo ≤ y0 := hlo (x0, y0) (by simp)
    have hhis : ∀ p ∈ rest, p.2 ≤ hi := fun p hp => hhi p (List.mem_cons_of_mem _ hp)
    by_cases hx : x < x0
    · by_cases hx' : x' < x0
      · simp [interp1d, hx, hx']
      · simp only [interp1d, if_pos hx, if_neg hx']
        have hx0' : x0 ≤ x' := le_of_not_lt hx'
        exact le_trans hloy0 (interpGo_bounds rest x0 y0 hi hch0 hy0hi hhis x' hx0').1
    · have hx' : ¬ x' < x0 := fun h => hx (lt_of_le_of_lt hxx h)
      simp only [interp1d, if_neg hx, if_neg hx']
      exact interpGo_mono rest x0 y0 hi hch0 hy0hi hhis x x' hxx

/-- Query strictly below the first grid point: lower fill value. -/
theorem interp1d_below (x0 y0 : ℚ) (rest : List (ℚ × ℚ)) (lo hi x : ℚ)
    (hx : x < x0) : interp1d ((x0, y0) :: rest) lo hi x = lo := by
  simp [interp1d, hx]

/-- Query strictly above every grid point: upper fill value. -/
theorem interpGo_above :
    ∀ (rest : List (ℚ × ℚ)) (x0 y0 hi x : ℚ), x0 < x → (∀ p ∈ rest, p.1 < x) →
      interpGo x0 y0 hi rest x = hi := by
  intro rest
  induction rest with
  | nil => intro x0 y0 hi x hx _; simp [interpGo, hx]
  | cons p rest ih =>
    intro x0 y0 hi x hx hall
    obtain ⟨x1, y1⟩ := p
    have hx1 : x1 < x := hall (x1, y1) (by simp)
    simp only [interpGo, if_neg (not_le.mpr hx1)]
    exact ih x1 y1 hi x hx1 (fun p hp => hall p (List.mem_cons_of_mem _ hp))

theorem interp1d_above (pts : List (ℚ × ℚ)) (lo hi x : ℚ) (hne : pts ≠ [])
    (hall : ∀ p ∈ pts, p.1 < x) : interp1d pts lo hi x = hi := by
  match pts with
  | (x0, y0) :: rest =>
    have hx0 : x0 < x := hall (x0, y0) (by simp)
    simp only [interp1d, if_neg (not_lt.mpr (le_of_lt hx0))]
    exact interpGo_above rest x0 y0 hi x hx0 (fun p hp => hall p (List.mem_cons_of_mem _ hp))

/-- The value of the interpolant at the first grid point is its `y` value. -/
theorem interp1d_head (x0 y0 : ℚ) (rest : List (ℚ × ℚ)) (lo hi : ℚ)
    (hch : List.Chain' PtLe ((x0, y0) :: rest)) :
    interp1d ((x0, y0) :: rest) lo hi x0 = y0 := by
  have hx : ¬ x0 < x0 := lt_irrefl x0
  simp only [interp1d, if_neg hx]
  match rest with
  | [] => simp [interpGo]
  | (x1, y1) :: rest' =>
    have hch0 : List.Chain PtLe (x0, y0) ((x1, y1) :: rest') := hch
    cases hch0 with
    | cons hR _ =>
      have hx01 : x0 < x1 := hR.1
      simp only [interpGo, if_pos (le_of_lt hx01)]
      have : x0 - x0 = 0 := by ring
      rw [this]
      ring

/-! ## `Source.create_harmonics_functions` (source.py lines 138-201)

The harmonic table (`legwork/harmonics.npz`, external data) supplies an
eccentricity grid `eRange` (reconstructed, strictly increasing — line 161), a
row `gVals[i]` of harmonic luminosities `g(n, e_i)` per grid point, the total
luminosity factors `fVals[i] = F(e_i)` and the maximum harmonic index `nMax`
(`len(n_range)`). -/

structure HarmonicsTable where
  eRange : List ℚ
  gVals : List (List ℚ)
  fVals : List ℚ
  nMax : ℕ

/-- The inner `while` loop of lines 177-180: keep incrementing the harmonic
count `h` (adding `g_vals[i][h]` to the running sum on each step) while the
accumulated luminosity is below `target` and `h < nMax`.  The loop is run with
`fuel = nMax - h`, which encodes the bound `harmonics_needed[i] < len(n_range)`. -/
def addHarmonics (gRow : List ℚ) (target : ℚ) : ℕ → ℕ → ℚ → ℕ
  | 0, h, _ => h
  | fuel + 1, h, total =>
    if total < target then addHarmonics gRow target fuel (h + 1) (total + gRow.getD h 0)
    else h

/-- The outer `for` loop of lines 171-180: each grid point starts from the
previous point's count (line 173), seeds the sum with
`g_vals[i][:harmonics_needed[i]].sum()` (line 174) and runs the `while` loop. -/
def harmonicsNeededAux (tol : ℚ) (nMax : ℕ) : ℕ → List (List ℚ × ℚ) → List ℕ
  | _, [] => []
  | prev, (gRow, fv) :: rest =>
    let hNext := addHarmonics gRow ((1 - tol) * fv) (nMax - prev) prev ((gRow.take prev).sum)
    hNext :: harmonicsNeededAux tol nMax hNext rest

/-- The `harmonics_needed` array of lines 167-180: `2` for the first grid
point, then the loop over the remaining grid points. -/
def harmonicsNeeded (tol : ℚ) (T : HarmonicsTable) : List ℕ :=
  match T.eRange with
  | [] => []
  | _ :: _ => 2 :: harmonicsNeededAux tol T.nMax 2 ((T.gVals.drop 1).zip (T.fVals.drop 1))

/-- `np.max` of a list of counts. -/
def listMax : List ℕ → ℕ
  | [] => 0
  | n :: l => max n (listMax l)

/-- The interpolation points of the `interp1d` call on lines 183-185. -/
def hrPts (tol : ℚ) (T : HarmonicsTable) : List (ℚ × ℚ) :=
  T.eRange.zip ((harmonicsNeeded tol T).map (fun n : ℕ => (n : ℚ)))

/-- `harmonics_required` (lines 183-190): interpolate `harmonics_needed` over
the eccentricity grid, with fill values `2` below the grid and
`np.max(harmonics_needed)` above it, then round up with `np.ceil`. -/
def harmonicsRequired (tol : ℚ) (T : HarmonicsTable) (e : ℚ) : ℤ :=
  ⌈interp1d (hrPts tol T) 2 ((listMax (harmonicsNeeded tol T) : ℚ)) e⌉

theorem le_addHarmonics (gRow : List ℚ) (target : ℚ) :
    ∀ (fuel h : ℕ) (total : ℚ), h ≤ addHarmonics gRow target fuel h total := by
  intro fuel
  induction fuel with
  | zero => intro h total; simp [addHarmonics]
  | succ fuel ih =>
    intro h total
    by_cases hc : total < target
    · simp only [addHarmonics, if_pos hc]
      exact le_trans (Nat.le_succ h) (ih (h + 1) _)
    · simp [addHarmonics, hc]

theorem chain_harmonicsNeededAux (tol : ℚ) (nMax : ℕ) :
    ∀ (l : List (List ℚ × ℚ)) (prev : ℕ),
      List.Chain (· ≤ ·) prev (harmonicsNeededAux tol nMax prev l) := by
  intro l
  induction l with
  | nil => intro prev; exact List.Chain.nil
  | cons p l ih =>
    intro prev
    obtain ⟨gRow, fv⟩ := p
    exact List.Chain.cons (le_addHarmonics gRow _ _ _ _) (ih _)

theorem chain_le_forall :
    ∀ {l : List ℕ} {a : ℕ}, List.Chain (· ≤ ·) a l → ∀ b ∈ l, a ≤ b := by
  intro l
  induction l with
  | nil => intro a _ b hb; exact absurd hb (by simp)
  | cons x l ih =>
    intro a hch b hb
    cases hch with
    | cons hax hch' =>
      rcases List.mem_cons.mp hb with rfl | hb'
      · exact hax
      · exact le_trans hax (ih hch' b hb')

theorem listMax_ge : ∀ (l : List ℕ), ∀ n ∈ l, n ≤ listMax l := by
  intro l
  induction l with
  | nil => intro n hn; exact absurd hn (by simp)
  | cons m l ih =>
    intro n hn
    rcases List.mem_cons.mp hn with rfl | hn'
    · exact le_max_left _ _
    · exact le_trans (ih n hn') (le_max_right _ _)

theorem harmonicsNeeded_chain' (tol : ℚ) (T : HarmonicsTable) :
    List.Chain' (· ≤ ·) (harmonicsNeeded tol T) := by
  obtain ⟨er, gv, fv, nm⟩ := T
  cases er with
  | nil => simp [harmonicsNeeded]
  | cons e0 erest =>
    show List.Chain (· ≤ ·) 2 (harmonicsNeededAux tol nm 2 _)
    exact chain_harmonicsNeededAux tol nm _ 2

theorem harmonicsNeeded_ge_two (tol : ℚ) (T : HarmonicsTable) :
    ∀ n ∈ harmonicsNeeded tol T, 2 ≤ n := by
  obtain ⟨er, gv, fv, nm⟩ := T
  cases er with
  | nil => intro n hn; exact absurd hn (by simp [harmonicsNeeded])
  | cons e0 erest =>
    intro n hn
    have hn' : n ∈ 2 :: harmonicsNeededAux tol nm 2 ((gv.drop 1).zip (fv.drop 1)) := hn
    rcases List.mem_cons.mp hn' with rfl | hmem
    · exact le_refl 2
    · exact chain_le_forall (chain_harmonicsNeededAux tol nm _ 2) n hmem

/-- `x`/`y` sortedness of zipped interpolation points. -/
theorem chain'_zip_ptle :
    ∀ (xs : List ℚ) (ys : List ℚ), List.Chain' (· < ·) xs → List.Chain' (· ≤ ·) ys →
      List.Chain' PtLe (xs.zip ys) := by
  intro xs
  induction xs with
  | nil => intro ys _ _; simp
  | cons x xs ih =>
    intro ys hx hy
    cases ys with
    | nil => simp [List.zip_nil_right]
    | cons y ys =>
      cases xs with
      | nil => simp
      | cons x' xs' =>
        cases ys with
        | nil => simp
        | cons y' ys' =>
          have hxx : x < x' := (List.chain'_cons.mp hx).1
          have hyy : y ≤ y' := (List.chain'_cons.mp hy).1
          have ht := ih (y' :: ys') (List.chain'_cons.mp hx).2 (List.chain'_cons.mp hy).2
          simp only [List.zip_cons_cons] at ht ⊢
          exact List.Chain'.cons ⟨hxx, hyy⟩ ht

theorem hrPts_chain' (tol : ℚ) (T : HarmonicsTable)
    (hsort : List.Chain' (· < ·) T.eRange) : List.Chain' PtLe (hrPts tol T) := by
  apply chain'_zip_ptle _ _ hsort
  exact List.chain'_map_of_chain' (fun n : ℕ => (n : ℚ))
    (fun a b hab => by simpa using (Nat.cast_le (α := ℚ)).mpr hab) (harmonicsNeeded_chain' tol T)

theorem hrPts_y_lo (tol : ℚ) (T : HarmonicsTable) :
    ∀ p ∈ hrPts tol T, (2 : ℚ) ≤ p.2 := by
  intro p hp
  obtain ⟨a, b⟩ := p
  have hb : b ∈ (harmonicsNeeded tol T).map (fun n : ℕ => (n : ℚ)) := (List.of_mem_zip hp).2
  obtain ⟨n, hn, hfn⟩ := List.mem_map.mp hb
  rw [← hfn]
  show (2 : ℚ) ≤ (n : ℚ)
  exact_mod_cast harmonicsNeeded_ge_two tol T n hn

theorem hrPts_y_hi (tol : ℚ) (T : HarmonicsTable) :
    ∀ p ∈ hrPts tol T, p.2 ≤ (listMax (harmonicsNeeded tol T) : ℚ) := by
  intro p hp
  obtain ⟨a, b⟩ := p
  have hb : b ∈ (harmonicsNeeded tol T).map (fun n : ℕ => (n : ℚ)) := (List.of_mem_zip hp).2
  obtain ⟨n, hn, hfn⟩ := List.mem_map.mp hb
  rw [← hfn]
  show (n : ℚ) ≤ (listMax (harmonicsNeeded tol T) : ℚ)
  exact_mod_cast listMax_ge _ n hn

/-- Claim C3: for a fixed luminosity tolerance, the `harmonics_required`
function built by `create_harmonics_functions` is monotone non-decreasing in
eccentricity: `e1 ≤ e2` implies `harmonics_required(e1) ≤ harmonics_required(e2)`,
for every harmonic table whose eccentricity grid strictly increases (as the
reconstructed `e_range` of line 161 does). -/
theorem claim_C3_harmonics_required_monotone (tol : ℚ) (T : HarmonicsTable)
    (hsort : List.Chain' (· < ·) T.eRange) (e1 e2 : ℚ) (h12 : e1 ≤ e2) :
    harmonicsRequired tol T e1 ≤ harmonicsRequired tol T e2 := by
  unfold harmonicsRequired
  apply Int.ceil_le_ceil
  exact interp1d_mono (hrPts tol T) 2 _ (hrPts_chain' tol T hsort)
    (hrPts_y_lo tol T) (hrPts_y_hi tol T) e1 e2 h12

/-- Concrete harmonic table used by the witnesses: two grid points, `nMax = 3`. -/
def tblW : HarmonicsTable :=
  { eRange := [0, 1/2], gVals := [[1, 1, 1], [1/2, 1/4, 1/4]], fVals := [1, 1], nMax := 3 }

theorem tblW_sorted : List.Chain' (· < ·) tblW.eRange :=
  List.chain'_cons.mpr ⟨by norm_num, List.chain'_singleton _⟩

theorem claim_C3_witness :
    List.Chain' (· < ·) tblW.eRange ∧ (0 : ℚ) ≤ 1 ∧
      harmonicsRequired (1/20) tblW 0 ≤ harmonicsRequired (1/20) tblW 1 :=
  ⟨tblW_sorted, by norm_num,
    claim_C3_harmonics_required_monotone (1/20) tblW tblW_sorted 0 1 (by norm_num)⟩

theorem le_getLast_of_chain' :
    ∀ (l : List ℚ) (hne : l ≠ []), List.Chain' (· < ·) l →
      ∀ x ∈ l, x ≤ l.getLast hne := by
  intro l
  induction l with
  | nil => intro hne; exact absurd rfl hne
  | cons a l ih =>
    intro hne hch x hx
    cases l with
    | nil =>
      have hx' : x = a := by simpa using hx
      simp [hx', List.getLast]
    | cons b l' =>
      have hab : a < b := (List.chain'_cons.mp hch).1
      have hch' : List.Chain' (· < ·) (b :: l') := (List.chain'_cons.mp hch).2
      rw [List.getLast_cons (by simp : (b : ℚ) :: l' ≠ [])]
      rcases List.mem_cons.mp hx with rfl | hx'
      · exact le_trans (le_of_lt hab) (ih (by simp) hch' b (by simp))
      · exact ih (by simp) hch' x hx'

/-- Claim C4: for every luminosity tolerance, `harmonics_required(0) = 2`
(given the table invariant that the grid starts at a non-negative
eccentricity), every eccentricity strictly below the grid minimum maps to `2`
(the lower fill value of line 185), and every eccentricity strictly above the
grid maximum returns `np.max(harmonics_needed)`, the maximum harmonic count
discovered over the grid (the upper fill value of line 185). -/
theorem claim_C4_harmonics_required_boundary (tol : ℚ) (T : HarmonicsTable)
    (hne : T.eRange ≠ []) (hsort : List.Chain' (· < ·) T.eRange)
    (h0 : 0 ≤ T.eRange.head hne) :
    harmonicsRequired tol T 0 = 2 ∧
    (∀ e : ℚ, e < T.eRange.head hne → harmonicsRequired tol T e = 2) ∧
    (∀ e : ℚ, T.eRange.getLast hne < e →
      harmonicsRequired tol T e = (listMax (harmonicsNeeded tol T) : ℤ)) := by
  have hch : List.Chain' PtLe (hrPts tol T) := hrPts_chain' tol T hsort
  obtain ⟨er, gv, fv, nm⟩ := T
  cases er with
  | nil => exact absurd rfl hne
  | cons e0 erest =>
    have hpts : hrPts tol ⟨e0 :: erest, gv, fv, nm⟩
        = (e0, 2) :: erest.zip ((harmonicsNeededAux tol nm 2
            ((gv.drop 1).zip (fv.drop 1))).map (fun n : ℕ => (n : ℚ))) := by
      simp [hrPts, harmonicsNeeded, List.zip_cons_cons]
    have hhead : (⟨e0 :: erest, gv, fv, nm⟩ : HarmonicsTable).eRange.head hne = e0 := rfl
    have hbelow : ∀ e : ℚ, e < e0 → harmonicsRequired tol ⟨e0 :: erest, gv, fv, nm⟩ e = 2 := by
      intro e he
      unfold harmonicsRequired
      rw [hpts, interp1d_below _ _ _ _ _ _ he]
      norm_num
    refine ⟨?_, by rw [hhead]; exact hbelow, ?_⟩
    · rw [hhead] at h0
      rcases lt_or_eq_of_le h0 with h0' | h0'
      · exact hbelow 0 h0'
      · subst h0'
        unfold harmonicsRequired
        rw [hpts] at hch ⊢
        rw [interp1d_head _ _ _ _ _ hch]
        norm_num
    · intro e he
      have hall : ∀ p ∈ hrPts tol ⟨e0 :: erest, gv, fv, nm⟩, p.1 < e := by
        intro p hp
        obtain ⟨px, py⟩ := p
        have hmem : px ∈ e0 :: erest := (List.of_mem_zip hp).1
        exact lt_of_le_of_lt (le_getLast_of_chain' _ hne hsort px hmem) he
      unfold harmonicsRequired
      rw [interp1d_above _ _ _ _ (by rw [hpts]; simp) hall]
      exact Int.ceil_natCast _

theorem claim_C4_witness :
    harmonicsRequired (1/20) tblW 0 = 2 ∧
    harmonicsRequired (1/20) tblW (-1) = 2 ∧
    harmonicsRequired (1/20) tblW 1 = (listMax (harmonicsNeeded (1/20) tblW) : ℤ) := by
  have h := claim_C4_harmonics_required_boundary (1/20) tblW (by simp [tblW]) tblW_sorted
    (by exact le_refl 0)
  exact ⟨h.1, h.2.1 (-1) (by show (-1 : ℚ) < 0; norm_num),
    h.2.2 1 (by show (1/2 : ℚ) < 1; norm_num)⟩

/-! ## `Source.find_eccentric_transition` (source.py lines 203-214) -/

/-- `np.linspace a b n`: `n` evenly spaced points from `a` to `b`. -/
def linspace (a b : ℚ) (n : ℕ) : List ℚ :=
  (List.range n).map (fun i : ℕ => a + (b - a) * i / ((n : ℚ) - 1))

/-- Modelled from the spec: the compared functions `peters_g` and `peters_f`
live in `legwork/utils.py`, which is not part of the reviewed sources; they are
abstract parameters `g2` (the two-harmonic luminosity `e ↦ g(2, e)`) and `F`
(the enhancement factor `e ↦ F(e)`).  The scan itself mirrors lines 209-214:
`e_range = np.linspace(0.0, 0.2, 10000)` and the threshold is
`e_range[circular_lum < lum_within_tolerance][0]`, the first grid point with
`g(2, e) < (1 - tol) * F(e)`; `none` models the `IndexError` raised when no
grid point satisfies the condition. -/
def findEccentricTransition (g2 F : ℚ → ℚ) (tol : ℚ) : Option ℚ :=
  (linspace 0 (1/5) 10000).find? (fun e => decide (g2 e < (1 - tol) * F e))

theorem linspace_pairwise_10000 (a b : ℚ) (hab : a < b) :
    List.Pairwise (· < ·) (linspace a b 10000) := by
  unfold linspace
  apply List.Pairwise.map
  · intro i j hij
    show a + (b - a) * i / ((10000 : ℚ) - 1) < a + (b - a) * j / ((10000 : ℚ) - 1)
    have hd : (0 : ℚ) < (10000 : ℚ) - 1 := by norm_num
    have hba : (0 : ℚ) < b - a := by linarith
    have hcast : (i : ℚ) < (j : ℚ) := by exact_mod_cast hij
    have h1 : (b - a) * (i : ℚ) < (b - a) * (j : ℚ) := mul_lt_mul_of_pos_left hcast hba
    have h2 : (b - a) * (i : ℚ) / ((10000 : ℚ) - 1) < (b - a) * (j : ℚ) / ((10000 : ℚ) - 1) :=
      (div_lt_div_iff_of_pos_right hd).mpr h1
    linarith
  · exact List.pairwise_lt_range 10000

/-- `find?` on a strictly sorted list: every element before the found one
fails the predicate. -/
theorem find?_sorted_before {p : ℚ → Bool} :
    ∀ {l : List ℚ}, List.Pairwise (· < ·) l → ∀ {t : ℚ}, l.find? p = some t →
      ∀ x ∈ l, x < t → p x = false := by
  intro l
  induction l with
  | nil => intro _ t ht; simp [List.find?] at ht
  | cons a l ih =>
    intro hp t ht x hx hxt
    by_cases hpa : p a
    · rw [List.find?_cons_of_pos _ hpa] at ht
      have hta : a = t := by simpa using ht
      subst hta
      rcases List.mem_cons.mp hx with rfl | hx'
      · exact absurd hxt (lt_irrefl x)
      · exact absurd hxt (not_lt.mpr (le_of_lt ((List.pairwise_cons.mp hp).1 x hx')))
    · rw [List.find?_cons_of_neg _ hpa] at ht
      rcases List.mem_cons.mp hx with rfl | hx'
      · simpa using hpa
      · exact ih (List.pairwise_cons.mp hp).2 ht x hx' hxt

/-- Claim C5 (amended): when the scan of `find_eccentric_transition` finds a
threshold `t` (the first grid point of `np.linspace(0.0, 0.2, 10000)` with
`g(2, e) < (1 − tol)·F(e)`), the condition holds at `t` itself and at every
grid point strictly below `t` the two-harmonic luminosity still satisfies
`g(2, e) ≥ (1 − tol)·F(e)`.  Grid points strictly *above* the threshold need
not fail that inequality — the code takes the first crossing only, see the
counterexample. -/
theorem claim_C5_first_crossing (g2 F : ℚ → ℚ) (tol t : ℚ)
    (ht : findEccentricTransition g2 F tol = some t) :
    g2 t < (1 - tol) * F t ∧
    ∀ e ∈ linspace 0 (1/5) 10000, e < t → (1 - tol) * F e ≤ g2 e := by
  have ht' : (linspace 0 (1/5) 10000).find? (fun e => decide (g2 e < (1 - tol) * F e))
      = some t := ht
  constructor
  · have h := List.find?_some ht'
    simpa using h
  · intro e he het
    have hp := find?_sorted_before (linspace_pairwise_10000 0 (1/5) (by norm_num)) ht' e he het
    have hp' : decide (g2 e < (1 - tol) * F e) = false := by simpa using hp
    exact not_lt.mp (of_decide_eq_false hp')

def g2W : ℚ → ℚ := fun _ => 0

def fW : ℚ → ℚ := fun _ => 1

/-- One-step evaluation of `find?` over a mapped `range`, used to examine the
first grid points of a `linspace` without materialising all of it. -/
theorem find?_map_range_succ (f : ℕ → ℚ) (p : ℚ → Bool) (n : ℕ) :
    ((List.range (n + 1)).map f).find? p =
      if p (f 0) then some (f 0)
      else ((List.range n).map (fun i : ℕ => f (i + 1))).find? p := by
  rw [List.range_succ_eq_map, List.map_cons]
  by_cases h : p (f 0)
  · rw [List.find?_cons_of_pos _ h, if_pos h]
  · rw [List.find?_cons_of_neg _ h, if_neg h, List.map_map]
    rfl

theorem claim_C5_witness_hfind : findEccentricTransition g2W fW (1/2) = some 0 := by
  unfold findEccentricTransition linspace
  rw [show (10000 : ℕ) = 9999 + 1 from rfl, find?_map_range_succ]
  rw [if_pos (by norm_num [g2W, fW])]
  norm_num

theorem claim_C5_witness :
    findEccentricTransition g2W fW (1/2) = some 0 ∧
    (g2W 0 < (1 - 1/2) * fW 0 ∧
      ∀ e ∈ linspace 0 (1/5) 10000, e < 0 → (1 - 1/2) * fW e ≤ g2W e) :=
  ⟨claim_C5_witness_hfind, claim_C5_first_crossing g2W fW (1/2) 0 claim_C5_witness_hfind⟩

def g2X : ℚ → ℚ := fun e => if e = 1/49995 then 0 else 1

def fX : ℚ → ℚ := fun _ => 1

/-- Claim C5 counterexample: with tolerance `1/2` and the (abstract) comparison
functions `g2X`/`fX`, the scan's threshold is the second grid point
`1/49995`, yet at the third grid point `2/49995 > 1/49995` the two-harmonic
condition `g(2, e) < (1 − tol)·F(e)` does **not** hold — refuting the claim
that the condition fails at every grid point strictly above the threshold. -/
theorem claim_C5_counterexample :
    findEccentricTransition g2X fX (1/2) = some (1/49995) ∧
    (2/49995 : ℚ) ∈ linspace 0 (1/5) 10000 ∧
    (1/49995 : ℚ) < 2/49995 ∧
    ¬ (g2X (2/49995) < (1 - 1/2) * fX (2/49995)) := by
  refine ⟨?_, ?_, by norm_num, by norm_num [g2X, fX]⟩
  · unfold findEccentricTransition linspace
    rw [show (10000 : ℕ) = 9999 + 1 from rfl, find?_map_range_succ]
    rw [if_neg (by norm_num [g2X, fX])]
    rw [show (9999 : ℕ) = 9998 + 1 from rfl, find?_map_range_succ]
    rw [if_pos (by norm_num [g2X, fX])]
    norm_num
  · unfold linspace
    refine List.mem_map.mpr ⟨2, List.mem_range.mpr (by norm_num), by norm_num⟩

/-! ## The SNR dispatcher (source.py lines 292-338 and 393-575) -/

structure Src where
  m_1 : ℚ
  m_2 : ℚ
  ecc : ℚ
  dist : ℚ
  f_orb : ℚ
deriving DecidableEq, Inhabited

/-- State of a `Source` object relevant to SNR dispatch.  The externally
defined collaborators are abstracted as function fields: `hr` is the
`harmonics_required` function built by `create_harmonics_functions` (cf.
`harmonicsRequired`), `isStat` is `utils.determine_stationarity` (module not
part of the reviewed sources) applied per source at the requested `t_obs`, and
the four `snr*` fields are the vectorised, elementwise formulas of
`legwork.snr`, the eccentric ones taking the `harmonics_required` cutoff as
second argument. -/
structure SnrModel where
  eccTol : ℚ
  hr : ℚ → ℤ
  isStat : Src → Bool
  snrCircStat : Src → ℚ
  snrEccStat : Src → ℤ → ℚ
  snrCircEvol : Src → ℚ
  snrEccEvol : Src → ℤ → ℚ

/-- `harmonic_groups` (lines 490 and 556). -/
def harmonicGroups : List (ℤ × ℤ) := [(1, 10), (10, 100), (100, 1000), (1000, 10000)]

/-- `ind_ecc = np.logical_and(self.ecc > self.ecc_tol, which_sources)`
(line 471 / 536). -/
def eccMask (M : SnrModel) (srcs : List Src) (which : List Bool) : List Bool :=
  List.zipWith (fun s w => decide (M.eccTol < s.ecc) && w) srcs which

/-- `ind_circ = np.logical_and(self.ecc <= self.ecc_tol, which_sources)`
(line 472 / 537). -/
def circMask (M : SnrModel) (srcs : List Src) (which : List Bool) : List Bool :=
  List.zipWith (fun s w => decide (s.ecc ≤ M.eccTol) && w) srcs which

/-- `match = np.logical_and(harm_mask, ind_ecc)` for one harmonic group
(lines 492-494 / 558-560); `harmonics_required` is evaluated on the full
eccentricity array (line 489 / 555). -/
def matchMask (M : SnrModel) (srcs : List Src) (indEcc : List Bool) (lu : ℤ × ℤ) : List Bool :=
  List.zipWith (fun s e => (decide (lu.1 ≤ M.hr s.ecc) && decide (M.hr s.ecc < lu.2)) && e)
    srcs indEcc

/-- Body of the `for lower, upper in harmonic_groups` loop (lines 491-504 /
557-573): empty buckets are skipped, otherwise the eccentric formula with
cutoff `hr = upper - 1` (line 496 / 562) is scattered over the bucket. -/
def eccStep (M : SnrModel) (eccForm : Src → ℤ → ℚ) (srcs : List Src) (indEcc : List Bool)
    (snr : List ℚ) (lu : ℤ × ℤ) : List ℚ :=
  if (matchMask M srcs indEcc lu).any id then
    maskAssign snr (matchMask M srcs indEcc lu)
      ((maskSelect (matchMask M srcs indEcc lu) srcs).map (fun s => eccForm s (lu.2 - 1)))
  else snr

/-- The zero-initialised output with the circular branch scattered in
(lines 470-484 / 532-550). -/
def snrCircPart (M : SnrModel) (circForm : Src → ℚ) (srcs : List Src)
    (which : List Bool) : List ℚ :=
  if (circMask M srcs which).any id then
    maskAssign (List.replicate srcs.length 0) (circMask M srcs which)
      ((maskSelect (circMask M srcs which) srcs).map circForm)
  else List.replicate srcs.length 0

/-- Common body of `get_snr_stationary` and `get_snr_evolving` over the full
source list (lines 470-504 and 532-573 coincide up to the invoked formulas):
circular branch, then the harmonic-group loop over the eccentric branch. -/
def snrDispatchFull (M : SnrModel) (circForm : Src → ℚ) (eccForm : Src → ℤ → ℚ)
    (srcs : List Src) (which : List Bool) : List ℚ :=
  if (eccMask M srcs which).any id then
    harmonicGroups.foldl (eccStep M eccForm srcs (eccMask M srcs which))
      (snrCircPart M circForm srcs which)
  else snrCircPart M circForm srcs which

/-- `Source.get_snr_stationary` before the final compression of line 506. -/
def getSnrStationaryFull (M : SnrModel) (srcs : List Src) (which : List Bool) : List ℚ :=
  snrDispatchFull M M.snrCircStat M.snrEccStat srcs which

/-- `Source.get_snr_evolving` before the final compression of line 575. -/
def getSnrEvolvingFull (M : SnrModel) (srcs : List Src) (which : List Bool) : List ℚ :=
  snrDispatchFull M M.snrCircEvol M.snrEccEvol srcs which

/-- `Source.get_snr_stationary` (lines 447-506): `which_sources` defaults to
all sources (line 468-469) and the result is `snr[which_sources]` (line 506). -/
def getSnrStationary (M : SnrModel) (srcs : List Src) (which : Option (List Bool)) : List ℚ :=
  maskSelect (which.getD (List.replicate srcs.length true))
    (getSnrStationaryFull M srcs (which.getD (List.replicate srcs.length true)))

/-- `Source.get_snr_evolving` (lines 508-575). -/
def getSnrEvolving (M : SnrModel) (srcs : List Src) (which : Option (List Bool)) : List ℚ :=
  maskSelect (which.getD (List.replicate srcs.length true))
    (getSnrEvolvingFull M srcs (which.getD (List.replicate srcs.length true)))

/-- A Python value passed for the tri-state `circular` / `stationary`
arguments of `get_source_mask`: `None`, `True`, `False`, or anything else. -/
inductive PyTri
  | pyNone
  | pyTrue
  | pyFalse
  | pyOther
deriving DecidableEq

/-- `Source.get_source_mask` (lines 292-338): validate `circular`, then
`stationary`, build the two masks and return their conjunction.  The
stationarity predicate `M.isStat` stands for `utils.determine_stationarity`
(line 328), and `stationary=False` negates it (lines 333-334). -/
def getSourceMask (M : SnrModel) (srcs : List Src) (circular stationary : PyTri) :
    Except String (List Bool) :=
  match circular with
  | .pyOther => .error "`circular` must be None, True or False"
  | c =>
    match stationary with
    | .pyOther => .error "`stationary` must be None, True or False"
    | st =>
      .ok (List.zipWith (fun a b => a && b)
        (match c with
          | .pyNone => srcs.map (fun _ => true)
          | .pyTrue => srcs.map (fun s => decide (s.ecc ≤ M.eccTol))
          | _ => srcs.map (fun s => decide (M.eccTol < s.ecc)))
        (match st with
          | .pyNone => srcs.map (fun _ => true)
          | .pyTrue => srcs.map M.isStat
          | _ => (srcs.map M.isStat).map not))

/-- The body of `get_snr` (lines 424-444) once the stationarity mask is in
hand: zero-initialised output, guarded scatter of the stationary subset, then
guarded scatter of the evolving subset over the complement mask. -/
def getSnrScatter (M : SnrModel) (srcs : List Src) (statMask : List Bool) : List ℚ :=
  if (statMask.map not).any id then
    maskAssign
      (if statMask.any id then
        maskAssign (List.replicate srcs.length 0) statMask
          (getSnrStationary M srcs (some statMask))
      else List.replicate srcs.length 0)
      (statMask.map not) (getSnrEvolving M srcs (some (statMask.map not)))
  else
    (if statMask.any id then
      maskAssign (List.replicate srcs.length 0) statMask
        (getSnrStationary M srcs (some statMask))
    else List.replicate srcs.length 0)

/-- `Source.get_snr` (lines 393-445): stationarity mask from
`get_source_mask(circular=None, stationary=True)` (line 425), complement
`evol_mask` (line 427), and the two guarded scatters of lines 429-443. -/
def getSnr (M : SnrModel) (srcs : List Src) : List ℚ :=
  getSnrScatter M srcs
    (match getSourceMask M srcs .pyNone .pyTrue with
      | .ok m => m
      | .error _ => [])

theorem getD_replicate_self {α : Type} (a : α) :
    ∀ (n i : ℕ), (List.replicate n a).getD i a = a := by
  intro n
  induction n with
  | zero => intro i; simp
  | succ n ih => intro i; cases i <;> simp [List.replicate, ih]

theorem eccMask_length (M : SnrModel) (srcs : List Src) (which : List Bool)
    (hw : which.length = srcs.length) : (eccMask M srcs which).length = srcs.length := by
  simp [eccMask, hw]

theorem circMask_length (M : SnrModel) (srcs : List Src) (which : List Bool)
    (hw : which.length = srcs.length) : (circMask M srcs which).length = srcs.length := by
  simp [circMask, hw]

theorem matchMask_length (M : SnrModel) (srcs : List Src) (indEcc : List Bool) (lu : ℤ × ℤ)
    (hind : indEcc.length = srcs.length) :
    (matchMask M srcs indEcc lu).length = srcs.length := by
  simp [matchMask, hind]

theorem eccStep_length (M : SnrModel) (eccForm : Src → ℤ → ℚ) (srcs : List Src)
    (indEcc : List Bool) (snr : List ℚ) (lu : ℤ × ℤ) :
    (eccStep M eccForm srcs indEcc snr lu).length = snr.length := by
  unfold eccStep
  split
  · exact maskAssign_length snr _ _
  · rfl

theorem snrCircPart_length (M : SnrModel) (circForm : Src → ℚ) (srcs : List Src)
    (which : List Bool) : (snrCircPart M circForm srcs which).length = srcs.length := by
  unfold snrCircPart
  split
  · rw [maskAssign_length]; simp
  · simp

theorem foldl_eccStep_length (M : SnrModel) (eccForm : Src → ℤ → ℚ) (srcs : List Src)
    (indEcc : List Bool) :
    ∀ (groups : List (ℤ × ℤ)) (snr : List ℚ),
      (groups.foldl (eccStep M eccForm srcs indEcc) snr).length = snr.length := by
  intro groups
  induction groups with
  | nil => intro snr; rfl
  | cons lu groups ih =>
    intro snr
    simp only [List.foldl_cons]
    rw [ih, eccStep_length]

theorem snrDispatchFull_length (M : SnrModel) (circForm : Src → ℚ) (eccForm : Src → ℤ → ℚ)
    (srcs : List Src) (which : List Bool) :
    (snrDispatchFull M circForm eccForm srcs which).length = srcs.length := by
  unfold snrDispatchFull
  split
  · rw [foldl_eccStep_length, snrCircPart_length]
  · exact snrCircPart_length M circForm srcs which

theorem snrCircPart_getD (M : SnrModel) (circForm : Src → ℚ) (srcs : List Src)
    (which : List Bool) (hw : which.length = srcs.length) (i : ℕ) (hi : i < srcs.length) :
    (snrCircPart M circForm srcs which).getD i 0 =
      if (circMask M srcs which).getD i false then circForm (srcs.getD i default) else 0 := by
  unfold snrCircPart
  by_cases hany : (circMask M srcs which).any id = true
  · rw [if_pos hany]
    rw [maskAssign_getD circForm default srcs _ _ i (by simp)
      (circMask_length M srcs which hw) hi]
    by_cases hm : (circMask M srcs which).getD i false = true
    · rw [hm]; simp
    · have hm' : (circMask M srcs which).getD i false = false := by simpa using hm
      rw [hm']
      simp [getD_replicate_self]
  · rw [if_neg hany]
    have hm' : (circMask M srcs which).getD i false = false :=
      getD_false_of_any_false _ i (by simpa using hany)
    rw [hm']
    simp [getD_replicate_self]

theorem eccStep_getD (M : SnrModel) (eccForm : Src → ℤ → ℚ) (srcs : List Src)
    (indEcc : List Bool) (snr : List ℚ) (lu : ℤ × ℤ)
    (hsnr : snr.length = srcs.length) (hind : indEcc.length = srcs.length)
    (i : ℕ) (hi : i < srcs.length) :
    (eccStep M eccForm srcs indEcc snr lu).getD i 0 =
      if (matchMask M srcs indEcc lu).getD i false
      then eccForm (srcs.getD i default) (lu.2 - 1) else snr.getD i 0 := by
  unfold eccStep
  by_cases hany : (matchMask M srcs indEcc lu).any id = true
  · rw [if_pos hany]
    exact maskAssign_getD (fun s => eccForm s (lu.2 - 1)) default srcs snr _ i hsnr
      (matchMask_length M srcs indEcc lu hind) hi
  · rw [if_neg hany]
    have hm' : (matchMask M srcs indEcc lu).getD i false = false :=
      getD_false_of_any_false _ i (by simpa using hany)
    rw [hm']
    simp

theorem foldl_eccStep_getD (M : SnrModel) (eccForm : Src → ℤ → ℚ) (srcs : List Src)
    (indEcc : List Bool) (hind : indEcc.length = srcs.length) (i : ℕ) (hi : i < srcs.length) :
    ∀ (groups : List (ℤ × ℤ)) (snr : List ℚ), snr.length = srcs.length →
      (groups.foldl (eccStep M eccForm srcs indEcc) snr).getD i 0 =
        groups.foldl
          (fun v lu => if (matchMask M srcs indEcc lu).getD i false
                       then eccForm (srcs.getD i default) (lu.2 - 1) else v)
          (snr.getD i 0) := by
  intro groups
  induction groups with
  | nil => intro snr _; rfl
  | cons lu groups ih =>
    intro snr hsnr
    simp only [List.foldl_cons]
    rw [ih (eccStep M eccForm srcs indEcc snr lu) (by rw [eccStep_length]; exact hsnr)]
    rw [eccStep_getD M eccForm srcs indEcc snr lu hsnr hind i hi]

/-- Per-source specification of the dispatch value: `0` outside
`which_sources`; the circular formula for `ecc ≤ ecc_tol`; for an eccentric
source whose required harmonic count lands in one of the four buckets, the
eccentric formula with the bucket's `upper − 1` cutoff; and `0` when the
required count matches no bucket. -/
def snrEntry (M : SnrModel) (circForm : Src → ℚ) (eccForm : Src → ℤ → ℚ)
    (srcs : List Src) (which : List Bool) (i : ℕ) : ℚ :=
  if which.getD i false then
    if (srcs.getD i default).ecc ≤ M.eccTol then circForm (srcs.getD i default)
    else if 1000 ≤ M.hr (srcs.getD i default).ecc ∧ M.hr (srcs.getD i default).ecc < 10000
      then eccForm (srcs.getD i default) 9999
    else if 100 ≤ M.hr (srcs.getD i default).ecc ∧ M.hr (srcs.getD i default).ecc < 1000
      then eccForm (srcs.getD i default) 999
    else if 10 ≤ M.hr (srcs.getD i default).ecc ∧ M.hr (srcs.getD i default).ecc < 100
      then eccForm (srcs.getD i default) 99
    else if 1 ≤ M.hr (srcs.getD i default).ecc ∧ M.hr (srcs.getD i default).ecc < 10
      then eccForm (srcs.getD i default) 9
    else 0
  else 0

/-- Pointwise characterisation of the stationary/evolving dispatch body. -/
theorem snrDispatchFull_getD (M : SnrModel) (circForm : Src → ℚ) (eccForm : Src → ℤ → ℚ)
    (srcs : List Src) (which : List Bool) (hw : which.length = srcs.length)
    (i : ℕ) (hi : i < srcs.length) :
    (snrDispatchFull M circForm eccForm srcs which).getD i 0 =
      snrEntry M circForm eccForm srcs which i := by
  have hwe : (eccMask M srcs which).length = srcs.length := eccMask_length M srcs which hw
  have hcirc := snrCircPart_getD M circForm srcs which hw i hi
  have hic : (circMask M srcs which).getD i false
      = (decide ((srcs.getD i default).ecc ≤ M.eccTol) && which.getD i false) := by
    unfold circMask
    exact zipWith_getD _ default false false srcs which i hi (by rw [hw]; exact hi)
  have hie : (eccMask M srcs which).getD i false
      = (decide (M.eccTol < (srcs.getD i default).ecc) && which.getD i false) := by
    unfold eccMask
    exact zipWith_getD _ default false false srcs which i hi (by rw [hw]; exact hi)
  have hmk : ∀ lu : ℤ × ℤ, (matchMask M srcs (eccMask M srcs which) lu).getD i false
      = ((decide (lu.1 ≤ M.hr (srcs.getD i default).ecc)
          && decide (M.hr (srcs.getD i default).ecc < lu.2))
          && (eccMask M srcs which).getD i false) := by
    intro lu
    unfold matchMask
    exact zipWith_getD _ default false false srcs _ i hi (by rw [hwe]; exact hi)
  unfold snrDispatchFull
  by_cases hany : (eccMask M srcs which).any id = true
  · rw [if_pos hany]
    rw [foldl_eccStep_getD M eccForm srcs _ hwe i hi harmonicGroups _
      (snrCircPart_length M circForm srcs which)]
    simp only [harmonicGroups, List.foldl_cons, List.foldl_nil]
    rw [hcirc, hmk (1000, 10000), hmk (100, 1000), hmk (10, 100), hmk (1, 10), hie, hic]
    simp only [snrEntry]
    generalize srcs.getD i default = s0
    by_cases hwi : which.getD i false = true
    · rw [hwi]
      by_cases hecc : s0.ecc ≤ M.eccTol
      · rw [decide_eq_false (not_lt.mpr hecc)]
        simp [hecc]
      · rw [decide_eq_false hecc, decide_eq_true (not_le.mp hecc)]
        simp [hecc]
    · have hwi' : which.getD i false = false := by simpa using hwi
      rw [hwi']
      simp
  · rw [if_neg hany]
    rw [hcirc, hic]
    have hef : (eccMask M srcs which).getD i false = false :=
      getD_false_of_any_false _ i (by simpa using hany)
    rw [hie] at hef
    simp only [snrEntry]
    generalize hs0 : srcs.getD i default = s0
    rw [hs0] at hef
    by_cases hwi : which.getD i false = true
    · rw [hwi]
      rw [hwi] at hef
      by_cases hecc : s0.ecc ≤ M.eccTol
      · rw [decide_eq_true hecc]
        simp [hecc]
      · rw [decide_eq_true (not_le.mp hecc)] at hef
        simp at hef
    · have hwi' : which.getD i false = false := by simpa using hwi
      rw [hwi']
      simp

theorem zipWith_true_and (f : Src → Bool) :
    ∀ (l : List Src),
      List.zipWith (fun a b => a && b) (l.map (fun _ => true)) (l.map f) = l.map f := by
  intro l
  induction l with
  | nil => rfl
  | cons x l ih =>
    simp only [List.map_cons, List.zipWith_cons_cons, Bool.true_and]
    rw [ih]

/-- The `get_snr` call `get_source_mask(circular=None, stationary=True)`
returns exactly the per-source stationarity bits. -/
theorem getSourceMask_none_true (M : SnrModel) (srcs : List Src) :
    getSourceMask M srcs .pyNone .pyTrue = .ok (srcs.map M.isStat) := by
  show Except.ok (List.zipWith (fun a b => a && b) (srcs.map (fun _ => true))
      (srcs.map M.isStat)) = Except.ok (srcs.map M.isStat)
  rw [zipWith_true_and]

theorem getSnrScatter_length (M : SnrModel) (srcs : List Src) (statMask : List Bool) :
    (getSnrScatter M srcs statMask).length = srcs.length := by
  unfold getSnrScatter
  by_cases h1 : ((statMask.map not).any id) = true
  · rw [if_pos h1, maskAssign_length]
    by_cases h2 : (statMask.any id) = true
    · rw [if_pos h2, maskAssign_length]; simp
    · rw [if_neg h2]; simp
  · rw [if_neg h1]
    by_cases h2 : (statMask.any id) = true
    · rw [if_pos h2, maskAssign_length]; simp
    · rw [if_neg h2]; simp

/-- Pointwise characterisation of the `get_snr` scatter: each output entry
comes from the stationary branch when the source's stationarity bit is set and
from the evolving branch otherwise. -/
theorem getSnrScatter_getD (M : SnrModel) (srcs : List Src) (statMask : List Bool)
    (hm : statMask.length = srcs.length) (i : ℕ) (hi : i < srcs.length) :
    (getSnrScatter M srcs statMask).getD i 0 =
      if statMask.getD i false
      then (getSnrStationaryFull M srcs statMask).getD i 0
      else (getSnrEvolvingFull M srcs (statMask.map not)).getD i 0 := by
  have hlenFullS : (getSnrStationaryFull M srcs statMask).length = srcs.length :=
    snrDispatchFull_length M M.snrCircStat M.snrEccStat srcs statMask
  have hlenFullE : (getSnrEvolvingFull M srcs (statMask.map not)).length = srcs.length :=
    snrDispatchFull_length M M.snrCircEvol M.snrEccEvol srcs (statMask.map not)
  have hmn : (statMask.map not).length = srcs.length := by simpa using hm
  have hnot : (statMask.map not).getD i false = !(statMask.getD i false) :=
    getD_map_lt not false false statMask i (by rw [hm]; exact hi)
  have hinner : (if statMask.any id = true then
        maskAssign (List.replicate srcs.length 0) statMask
          (getSnrStationary M srcs (some statMask))
      else List.replicate srcs.length 0).getD i 0
      = (if statMask.getD i false
         then (getSnrStationaryFull M srcs statMask).getD i 0 else 0) := by
    by_cases h2 : statMask.any id = true
    · rw [if_pos h2]
      unfold getSnrStationary
      simp only [Option.getD_some]
      rw [maskAssign_select_getD (List.replicate srcs.length 0) statMask
        (getSnrStationaryFull M srcs statMask) i
        (by rw [List.length_replicate, hlenFullS]) (by rw [hlenFullS]; exact hm)
        (by rw [hlenFullS]; exact hi)]
      by_cases hmi : statMask.getD i false = true
      · rw [hmi]
        simp
      · have hmi' : statMask.getD i false = false := by simpa using hmi
        rw [hmi']
        simp [getD_replicate_self]
    · rw [if_neg h2]
      have hmi : statMask.getD i false = false :=
        getD_false_of_any_false _ i (by simpa using h2)
      rw [hmi]
      simp [getD_replicate_self]
  have hinnerLen : (if statMask.any id = true then
        maskAssign (List.replicate srcs.length 0) statMask
          (getSnrStationary M srcs (some statMask))
      else List.replicate srcs.length 0).length = srcs.length := by
    by_cases h2 : statMask.any id = true
    · rw [if_pos h2, maskAssign_length]; simp
    · rw [if_neg h2]; simp
  unfold getSnrScatter
  by_cases h1 : ((statMask.map not).any id) = true
  · rw [if_pos h1]
    unfold getSnrEvolving
    simp only [Option.getD_some]
    rw [maskAssign_select_getD _ _ (getSnrEvolvingFull M srcs (statMask.map not)) i
      (by rw [hinnerLen, hlenFullE]) (by rw [hlenFullE]; exact hmn)
      (by rw [hlenFullE]; exact hi), hnot]
    by_cases hmi : statMask.getD i false = true
    · rw [hmi, hinner, hmi]
      simp
    · have hmi' : statMask.getD i false = false := by simpa using hmi
      rw [hmi']
      simp
  · rw [if_neg h1]
    have hni : (statMask.map not).getD i false = false :=
      getD_false_of_any_false _ i (by simpa using h1)
    rw [hnot] at hni
    have hmi : statMask.getD i false = true := by
      cases hst : statMask.getD i false
      · rw [hst] at hni; simp at hni
      · rfl
    rw [hinner, hmi]
    simp

/-- Claim C1: `get_snr` splits each batch by the stationarity mask of
`get_source_mask(circular=None, stationary=True)`, uses its exact pointwise
complement for the evolving set, computes the two subsets with
`get_snr_stationary` / `get_snr_evolving`, and scatters the compressed
sub-results back to the original positions — so each source's output entry is
written by exactly the one branch selected by its own stationarity bit. -/
theorem claim_C1_getSnr_scatter (M : SnrModel) (srcs : List Src) (i : ℕ)
    (hi : i < srcs.length) :
    (getSnr M srcs).length = srcs.length ∧
    ((srcs.map M.isStat).map not).getD i false = !((srcs.map M.isStat).getD i false) ∧
    (getSnr M srcs).getD i 0 =
      (if M.isStat (srcs.getD i default)
       then (getSnrStationaryFull M srcs (srcs.map M.isStat)).getD i 0
       else (getSnrEvolvingFull M srcs ((srcs.map M.isStat).map not)).getD i 0) := by
  have hsm : (srcs.map M.isStat).length = srcs.length := by simp
  have hgs : getSnr M srcs = getSnrScatter M srcs (srcs.map M.isStat) := by
    unfold getSnr
    rw [getSourceMask_none_true]
  refine ⟨?_, ?_, ?_⟩
  · rw [hgs]; exact getSnrScatter_length M srcs _
  · exact getD_map_lt not false false _ i (by simpa using hi)
  · rw [hgs, getSnrScatter_getD M srcs _ hsm i hi,
      getD_map_lt M.isStat default false srcs i hi]

/-- Concrete model used by the dispatch witnesses. -/
def mW : SnrModel :=
  { eccTol := 1/10
    hr := fun e => if e ≤ 1/10 then 2 else 10000
    isStat := fun s => decide (s.f_orb ≤ 1)
    snrCircStat := fun s => s.dist
    snrEccStat := fun s k => s.dist + (k : ℚ)
    snrCircEvol := fun s => s.m_1
    snrEccEvol := fun s k => s.m_1 + (k : ℚ) }

def srcW : Src := { m_1 := 1, m_2 := 1, ecc := 1/2, dist := 5, f_orb := 1 }

def srcW2 : Src := { m_1 := 2, m_2 := 2, ecc := 0, dist := 7, f_orb := 3 }

theorem claim_C1_witness :
    0 < [srcW, srcW2].length ∧
    (getSnr mW [srcW, srcW2]).length = [srcW, srcW2].length ∧
    (([srcW, srcW2].map mW.isStat).map not).getD 0 false
      = !(([srcW, srcW2].map mW.isStat).getD 0 false) ∧
    (getSnr mW [srcW, srcW2]).getD 0 0 =
      (if mW.isStat ([srcW, srcW2].getD 0 default)
       then (getSnrStationaryFull mW [srcW, srcW2] ([srcW, srcW2].map mW.isStat)).getD 0 0
       else (getSnrEvolvingFull mW [srcW, srcW2]
          (([srcW, srcW2].map mW.isStat).map not)).getD 0 0) :=
  ⟨by decide, (claim_C1_getSnr_scatter mW [srcW, srcW2] 0 (by decide)).1,
    (claim_C1_getSnr_scatter mW [srcW, srcW2] 0 (by decide)).2.1,
    (claim_C1_getSnr_scatter mW [srcW, srcW2] 0 (by decide)).2.2⟩

/-- Claim C10: in `get_snr_stationary` and `get_snr_evolving`, an eccentric
selected source whose required harmonic count is ≥ 10000 matches none of the
four harmonic buckets `[1,10), [10,100), [100,1000), [1000,10000)`, so no SNR
formula is invoked for it: its entry in the full SNR array — and therefore in
the returned compressed array `snr[which_sources]` — remains 0.  No error is
raised (both dispatch functions are total). -/
theorem claim_C10_no_bucket_zero (M : SnrModel) (srcs : List Src) (which : List Bool)
    (hw : which.length = srcs.length) (i : ℕ) (hi : i < srcs.length)
    (hwh : which.getD i false = true)
    (hecc : M.eccTol < (srcs.getD i default).ecc)
    (hhr : 10000 ≤ M.hr (srcs.getD i default).ecc) :
    (getSnrStationaryFull M srcs which).getD i 0 = 0 ∧
    (getSnrEvolvingFull M srcs which).getD i 0 = 0 ∧
    (getSnrStationary M srcs (some which)).getD (trueCount (which.take i)) 0 = 0 ∧
    (getSnrEvolving M srcs (some which)).getD (trueCount (which.take i)) 0 = 0 := by
  have hentry : ∀ (circForm : Src → ℚ) (eccForm : Src → ℤ → ℚ),
      snrEntry M circForm eccForm srcs which i = 0 := by
    intro circForm eccForm
    unfold snrEntry
    rw [hwh, if_pos rfl, if_neg (not_le.mpr hecc), if_neg (by omega), if_neg (by omega),
      if_neg (by omega), if_neg (by omega)]
  have hS : (getSnrStationaryFull M srcs which).getD i 0 = 0 := by
    unfold getSnrStationaryFull
    rw [snrDispatchFull_getD M M.snrCircStat M.snrEccStat srcs which hw i hi]
    exact hentry _ _
  have hE : (getSnrEvolvingFull M srcs which).getD i 0 = 0 := by
    unfold getSnrEvolvingFull
    rw [snrDispatchFull_getD M M.snrCircEvol M.snrEccEvol srcs which hw i hi]
    exact hentry _ _
  have hlenS : (getSnrStationaryFull M srcs which).length = srcs.length :=
    snrDispatchFull_length M M.snrCircStat M.snrEccStat srcs which
  have hlenE : (getSnrEvolvingFull M srcs which).length = srcs.length :=
    snrDispatchFull_length M M.snrCircEvol M.snrEccEvol srcs which
  refine ⟨hS, hE, ?_, ?_⟩
  · unfold getSnrStationary
    simp only [Option.getD_some]
    rw [maskSelect_getD which _ i (by rw [hlenS]; exact hw) (by rw [hlenS]; exact hi) hwh]
    exact hS
  · unfold getSnrEvolving
    simp only [Option.getD_some]
    rw [maskSelect_getD which _ i (by rw [hlenE]; exact hw) (by rw [hlenE]; exact hi) hwh]
    exact hE

theorem claim_C10_witness :
    ([true, true] : List Bool).length = [srcW, srcW2].length ∧
    (0 : ℕ) < [srcW, srcW2].length ∧
    ([true, true] : List Bool).getD 0 false = true ∧
    mW.eccTol < ([srcW, srcW2].getD 0 default).ecc ∧
    10000 ≤ mW.hr ([srcW, srcW2].getD 0 default).ecc ∧
    ((getSnrStationaryFull mW [srcW, srcW2] [true, true]).getD 0 0 = 0 ∧
      (getSnrEvolvingFull mW [srcW, srcW2] [true, true]).getD 0 0 = 0 ∧
      (getSnrStationary mW [srcW, srcW2] (some [true, true])).getD
        (trueCount (([true, true] : List Bool).take 0)) 0 = 0 ∧
      (getSnrEvolving mW [srcW, srcW2] (some [true, true])).getD
        (trueCount (([true, true] : List Bool).take 0)) 0 = 0) :=
  ⟨rfl, by decide, rfl, by norm_num [mW, srcW], by norm_num [mW, srcW],
    claim_C10_no_bucket_zero mW [srcW, srcW2] [true, true] rfl 0 (by decide) rfl
      (by norm_num [mW, srcW]) (by norm_num [mW, srcW])⟩

theorem trueCount_cons (b : Bool) (l : List Bool) :
    trueCount (b :: l) = (if b then 1 else 0) + trueCount l := rfl

theorem eccMask_cons (M : SnrModel) (s : Src) (srcs : List Src) (w : Bool)
    (which : List Bool) :
    eccMask M (s :: srcs) (w :: which)
      = (decide (M.eccTol < s.ecc) && w) :: eccMask M srcs which := rfl

theorem matchMask_cons (M : SnrModel) (s : Src) (srcs : List Src) (b : Bool)
    (indEcc : List Bool) (l u : ℤ) :
    matchMask M (s :: srcs) (b :: indEcc) (l, u)
      = ((decide (l ≤ M.hr s.ecc) && decide (M.hr s.ecc < u)) && b)
        :: matchMask M srcs indEcc (l, u) := rfl

/-- A required count in `[1, 10000)` is counted by exactly one bucket. -/
theorem bucket_bits (h : ℤ) (e : Bool) (he : e = true → 1 ≤ h ∧ h < 10000) :
    ((if (decide ((1 : ℤ) ≤ h) && decide (h < 10)) && e then 1 else 0) : ℕ)
      + (if (decide ((10 : ℤ) ≤ h) && decide (h < 100)) && e then 1 else 0)
      + (if (decide ((100 : ℤ) ≤ h) && decide (h < 1000)) && e then 1 else 0)
      + (if (decide ((1000 : ℤ) ≤ h) && decide (h < 10000)) && e then 1 else 0)
      = if e then 1 else 0 := by
  cases e with
  | false => simp
  | true =>
    obtain ⟨h1, h2⟩ := he rfl
    simp only [Bool.and_true, Bool.and_eq_true, decide_eq_true_eq]
    split_ifs <;> omega

theorem bucket_count_aux (M : SnrModel) :
    ∀ (srcs : List Src) (which : List Bool),
      which.length = srcs.length →
      (∀ s ∈ srcs, M.eccTol < s.ecc → 1 ≤ M.hr s.ecc ∧ M.hr s.ecc < 10000) →
      (harmonicGroups.map
        (fun lu => trueCount (matchMask M srcs (eccMask M srcs which) lu))).sum
      = trueCount (eccMask M srcs which) := by
  intro srcs
  induction srcs with
  | nil =>
    intro which hw _
    have hwnil : which = [] := List.length_eq_zero.mp (by simpa using hw)
    subst hwnil
    simp [harmonicGroups, eccMask, matchMask, trueCount]
  | cons s srcs ih =>
    intro which hw hhr
    cases which with
    | nil => exact absurd hw (by simp)
    | cons w which =>
      have hw' : which.length = srcs.length := by simpa using hw
      have hhr' : ∀ s' ∈ srcs, M.eccTol < s'.ecc → 1 ≤ M.hr s'.ecc ∧ M.hr s'.ecc < 10000 :=
        fun s' hs' => hhr s' (List.mem_cons_of_mem _ hs')
      have ihh := ih which hw' hhr'
      have hbits := bucket_bits (M.hr s.ecc) (decide (M.eccTol < s.ecc) && w)
        (fun hb => hhr s (by simp) (by
          simp only [Bool.and_eq_true, decide_eq_true_eq] at hb
          exact hb.1))
      simp only [harmonicGroups, List.map_cons, List.map_nil, List.sum_cons,
        List.sum_nil] at ihh ⊢
      simp only [eccMask_cons, matchMask_cons, trueCount_cons]
      omega

/-- The value of `snrEntry` for an eccentric in-batch source whose required
count falls in the bucket `[l, u)`: the eccentric formula at cutoff `u - 1`. -/
theorem snrEntry_bucket (M : SnrModel) (circForm : Src → ℚ) (eccForm : Src → ℤ → ℚ)
    (srcs : List Src) (which : List Bool) (i : ℕ)
    (hwh : which.getD i false = true)
    (hegt : M.eccTol < (srcs.getD i default).ecc)
    (l u : ℤ) (hmem : (l, u) ∈ harmonicGroups)
    (hl : l ≤ M.hr (srcs.getD i default).ecc)
    (hu : M.hr (srcs.getD i default).ecc < u) :
    snrEntry M circForm eccForm srcs which i = eccForm (srcs.getD i default) (u - 1) := by
  unfold snrEntry
  rw [hwh, if_pos rfl, if_neg (not_le.mpr hegt)]
  simp only [harmonicGroups, List.mem_cons, List.not_mem_nil, or_false,
    Prod.mk.injEq] at hmem
  rcases hmem with ⟨rfl, rfl⟩ | ⟨rfl, rfl⟩ | ⟨rfl, rfl⟩ | ⟨rfl, rfl⟩
  · rw [if_neg (by omega), if_neg (by omega), if_neg (by omega), if_pos (by omega)]
    norm_num
  · rw [if_neg (by omega), if_neg (by omega), if_pos (by omega)]
    norm_num
  · rw [if_neg (by omega), if_pos (by omega)]
    norm_num
  · rw [if_pos (by omega)]
    norm_num

/-- Claim C2 (amended): the harmonic bucketing of `get_snr_stationary` /
`get_snr_evolving` is lossless **for sources whose required harmonic count
lies in `[1, 10000)`** (as claimed, a count of `harmonics_required` is always
≥ 2, but the table can also demand ≥ 10000 harmonics, in which case the source
falls into no bucket — see the counterexample): when all eccentric sources'
counts lie in that range, the bucket membership counts sum exactly to the
eccentric-source count, every eccentric selected source belongs to exactly one
bucket, and its SNR entry is computed by the eccentric formula with harmonic
summation cutoff equal to its bucket's upper bound minus one. -/
theorem claim_C2_bucketing (M : SnrModel) (srcs : List Src) (which : List Bool)
    (hw : which.length = srcs.length)
    (hhr : ∀ s ∈ srcs, M.eccTol < s.ecc → 1 ≤ M.hr s.ecc ∧ M.hr s.ecc < 10000) :
    (harmonicGroups.map
        (fun lu => trueCount (matchMask M srcs (eccMask M srcs which) lu))).sum
      = trueCount (eccMask M srcs which) ∧
    (∀ i, i < srcs.length → (eccMask M srcs which).getD i false = true →
      (harmonicGroups.filter
          (fun lu => (matchMask M srcs (eccMask M srcs which) lu).getD i false)).length
        = 1) ∧
    (∀ i, i < srcs.length → ∀ lu ∈ harmonicGroups,
      (matchMask M srcs (eccMask M srcs which) lu).getD i false = true →
      (getSnrStationaryFull M srcs which).getD i 0
          = M.snrEccStat (srcs.getD i default) (lu.2 - 1) ∧
      (getSnrEvolvingFull M srcs which).getD i 0
          = M.snrEccEvol (srcs.getD i default) (lu.2 - 1)) := by
  have hwe : (eccMask M srcs which).length = srcs.length := eccMask_length M srcs which hw
  refine ⟨bucket_count_aux M srcs which hw hhr, ?_, ?_⟩
  · intro i hi hei
    have hmki : ∀ l u : ℤ,
        (matchMask M srcs (eccMask M srcs which) (l, u)).getD i false
          = ((decide (l ≤ M.hr (srcs.getD i default).ecc)
              && decide (M.hr (srcs.getD i default).ecc < u))
              && (eccMask M srcs which).getD i false) := by
      intro l u
      unfold matchMask
      exact zipWith_getD _ default false false srcs _ i hi (by rw [hwe]; exact hi)
    have hie : (eccMask M srcs which).getD i false
        = (decide (M.eccTol < (srcs.getD i default).ecc) && which.getD i false) := by
      unfold eccMask
      exact zipWith_getD _ default false false srcs which i hi (by rw [hw]; exact hi)
    have hsmem : srcs.getD i default ∈ srcs := by
      rw [List.getD_eq_getElem srcs default hi]
      exact List.getElem_mem hi
    have hegt : M.eccTol < (srcs.getD i default).ecc := by
      rw [hie] at hei
      simp only [Bool.and_eq_true, decide_eq_true_eq] at hei
      exact hei.1
    obtain ⟨h1, h2⟩ := hhr _ hsmem hegt
    simp only [harmonicGroups, List.filter_cons, List.filter_nil]
    rw [hmki 1 10, hmki 10 100, hmki 100 1000, hmki 1000 10000, hei]
    simp only [Bool.and_true, Bool.and_eq_true, decide_eq_true_eq]
    split_ifs <;> first | rfl | (exfalso; omega)
  · intro i hi lu hlu hmt
    have hmki : (matchMask M srcs (eccMask M srcs which) lu).getD i false
        = ((decide (lu.1 ≤ M.hr (srcs.getD i default).ecc)
            && decide (M.hr (srcs.getD i default).ecc < lu.2))
            && (eccMask M srcs which).getD i false) := by
      unfold matchMask
      exact zipWith_getD _ default false false srcs _ i hi (by rw [hwe]; exact hi)
    have hie : (eccMask M srcs which).getD i false
        = (decide (M.eccTol < (srcs.getD i default).ecc) && which.getD i false) := by
      unfold eccMask
      exact zipWith_getD _ default false false srcs which i hi (by rw [hw]; exact hi)
    rw [hmki, hie] at hmt
    simp only [Bool.and_eq_true, decide_eq_true_eq] at hmt
    obtain ⟨⟨hl, hu⟩, hegt, hwh⟩ := hmt
    obtain ⟨l, u⟩ := lu
    constructor
    · unfold getSnrStationaryFull
      rw [snrDispatchFull_getD M M.snrCircStat M.snrEccStat srcs which hw i hi]
      exact snrEntry_bucket M _ _ srcs which i hwh hegt l u hlu hl hu
    · unfold getSnrEvolvingFull
      rw [snrDispatchFull_getD M M.snrCircEvol M.snrEccEvol srcs which hw i hi]
      exact snrEntry_bucket M _ _ srcs which i hwh hegt l u hlu hl hu

/-- Model used by the C2 witness: eccentric sources need 50 harmonics. -/
def mW2 : SnrModel :=
  { eccTol := 1/10
    hr := fun e => if e ≤ 1/10 then 2 else 50
    isStat := fun _ => true
    snrCircStat := fun s => s.dist
    snrEccStat := fun s k => s.dist + (k : ℚ)
    snrCircEvol := fun s => s.m_1
    snrEccEvol := fun s k => s.m_1 + (k : ℚ) }

theorem claim_C2_witness :
    ([true, true] : List Bool).length = [srcW, srcW2].length ∧
    (∀ s ∈ [srcW, srcW2], mW2.eccTol < s.ecc → 1 ≤ mW2.hr s.ecc ∧ mW2.hr s.ecc < 10000) ∧
    ((harmonicGroups.map (fun lu => trueCount
        (matchMask mW2 [srcW, srcW2] (eccMask mW2 [srcW, srcW2] [true, true]) lu))).sum
      = trueCount (eccMask mW2 [srcW, srcW2] [true, true]) ∧
    (∀ i, i < [srcW, srcW2].length →
      (eccMask mW2 [srcW, srcW2] [true, true]).getD i false = true →
      (harmonicGroups.filter (fun lu =>
        (matchMask mW2 [srcW, srcW2] (eccMask mW2 [srcW, srcW2] [true, true]) lu).getD
          i false)).length = 1) ∧
    (∀ i, i < [srcW, srcW2].length → ∀ lu ∈ harmonicGroups,
      (matchMask mW2 [srcW, srcW2] (eccMask mW2 [srcW, srcW2] [true, true]) lu).getD
        i false = true →
      (getSnrStationaryFull mW2 [srcW, srcW2] [true, true]).getD i 0
          = mW2.snrEccStat ([srcW, srcW2].getD i default) (lu.2 - 1) ∧
      (getSnrEvolvingFull mW2 [srcW, srcW2] [true, true]).getD i 0
          = mW2.snrEccEvol ([srcW, srcW2].getD i default) (lu.2 - 1))) := by
  have hhr : ∀ s ∈ [srcW, srcW2], mW2.eccTol < s.ecc →
      1 ≤ mW2.hr s.ecc ∧ mW2.hr s.ecc < 10000 := by
    intro s hs h
    rcases List.mem_cons.mp hs with rfl | hs'
    · constructor <;> norm_num [mW2, srcW]
    · rcases List.mem_cons.mp hs' with rfl | hs''
      · exfalso
        norm_num [mW2, srcW2] at h
      · exact absurd hs'' (by simp)
  exact ⟨rfl, hhr, claim_C2_bucketing mW2 [srcW, srcW2] [true, true] rfl hhr⟩

/-- The inner `while` loop on an all-zero luminosity row never reaches the
target, so it exhausts the harmonic range: `fuel` increments happen. -/
theorem addHarmonics_nil (target : ℚ) (hpos : 0 < target) :
    ∀ (fuel hstart : ℕ), addHarmonics [] target fuel hstart 0 = hstart + fuel := by
  intro fuel
  induction fuel with
  | zero => intro hstart; simp [addHarmonics]
  | succ fuel ih =>
    intro hstart
    show (if (0 : ℚ) < target then
        addHarmonics [] target fuel (hstart + 1) (0 + List.getD [] hstart 0)
      else hstart) = hstart + (fuel + 1)
    rw [if_pos hpos]
    have hz : (0 : ℚ) + List.getD [] hstart 0 = 0 := by simp
    rw [hz, ih (hstart + 1)]
    omega

/-- Harmonic table forcing `harmonics_required = 10000` at the upper grid
point: the second row's luminosities are all zero, so the `while` loop of
lines 177-180 runs until the full harmonic range `n_max = 10000` is
exhausted. -/
def tblX : HarmonicsTable :=
  { eRange := [0, 1/2], gVals := [[1, 1], []], fVals := [1, 1], nMax := 10000 }

theorem tblX_hn : harmonicsNeeded (1/20) tblX = [2, 10000] := by
  show 2 :: harmonicsNeededAux (1/20) 10000 2
      (((tblX.gVals.drop 1).zip (tblX.fVals.drop 1))) = [2, 10000]
  show 2 :: harmonicsNeededAux (1/20) 10000 2 [([], 1)] = [2, 10000]
  unfold harmonicsNeededAux
  rw [show ((([] : List ℚ).take 2).sum : ℚ) = 0 from rfl]
  rw [show (10000 - 2 : ℕ) = 9998 from rfl]
  rw [addHarmonics_nil ((1 - 1/20) * 1) (by norm_num) 9998 2]
  norm_num [harmonicsNeededAux]

theorem interp1d_pair_right (x0 y0 x1 y1 lo hi : ℚ) (h01 : x0 < x1) :
    interp1d [(x0, y0), (x1, y1)] lo hi x1 = y1 := by
  show (if x1 < x0 then lo else interpGo x0 y0 hi [(x1, y1)] x1) = y1
  rw [if_neg (not_lt.mpr (le_of_lt h01))]
  show (if x1 ≤ x1 then y0 + (y1 - y0) * (x1 - x0) / (x1 - x0)
      else interpGo x1 y1 hi [] x1) = y1
  rw [if_pos (le_refl x1)]
  rw [mul_div_assoc, div_self (by linarith : x1 - x0 ≠ 0)]
  ring

theorem tblX_hr : harmonicsRequired (1/20) tblX (1/2) = 10000 := by
  unfold harmonicsRequired hrPts
  rw [tblX_hn]
  show (⌈interp1d [((0 : ℚ), ((2 : ℕ) : ℚ)), ((1/2 : ℚ), ((10000 : ℕ) : ℚ))] 2
      (((listMax [2, 10000] : ℕ)) : ℚ) (1/2)⌉) = 10000
  rw [interp1d_pair_right 0 ((2 : ℕ) : ℚ) (1/2) ((10000 : ℕ) : ℚ) 2 _ (by norm_num)]
  norm_num

/-- Model for the C2 counterexample: the dispatcher's `harmonics_required`
function is the one built (by `create_harmonics_functions`) from `tblX`. -/
def mX : SnrModel :=
  { eccTol := 1/10
    hr := harmonicsRequired (1/20) tblX
    isStat := fun _ => true
    snrCircStat := fun _ => 0
    snrEccStat := fun _ _ => 0
    snrCircEvol := fun _ => 0
    snrEccEvol := fun _ _ => 0 }

def srcX : Src := { m_1 := 1, m_2 := 1, ecc := 1/2, dist := 1, f_orb := 1 }

/-- Claim C2 counterexample: with the harmonics function built from `tblX`
(so that `harmonics_required(1/2) = 10000`), the single eccentric source of
the batch falls into none of the four harmonic buckets: the bucket membership
counts sum to 0 while the eccentric-source count is 1 — the partition is not
lossless as stated. -/
theorem claim_C2_counterexample :
    trueCount (eccMask mX [srcX] [true]) = 1 ∧
    (harmonicGroups.map
      (fun lu => trueCount (matchMask mX [srcX] (eccMask mX [srcX] [true]) lu))).sum = 0 := by
  have hhr : mX.hr srcX.ecc = 10000 := tblX_hr
  have hecc : eccMask mX [srcX] [true] = [true] := by
    show [decide (mX.eccTol < srcX.ecc) && true] = [true]
    norm_num [mX, srcX]
  rw [hecc]
  refine ⟨rfl, ?_⟩
  have hmm : ∀ l u : ℤ, (l, u) ∈ harmonicGroups →
      matchMask mX [srcX] [true] (l, u) = [false] := by
    intro l u hlu
    show [(decide (l ≤ mX.hr srcX.ecc) && decide (mX.hr srcX.ecc < u)) && true] = [false]
    rw [hhr]
    simp only [harmonicGroups, List.mem_cons, List.not_mem_nil, or_false,
      Prod.mk.injEq] at hlu
    rcases hlu with ⟨rfl, rfl⟩ | ⟨rfl, rfl⟩ | ⟨rfl, rfl⟩ | ⟨rfl, rfl⟩ <;> decide
  simp only [harmonicGroups, List.map_cons, List.map_nil, List.sum_cons, List.sum_nil]
  rw [hmm 1 10 (by simp [harmonicGroups]), hmm 10 100 (by simp [harmonicGroups]),
    hmm 100 1000 (by simp [harmonicGroups]), hmm 1000 10000 (by simp [harmonicGroups])]
  rfl

/-- Claim C7: a `circular` value that is not `None`/`True`/`False` raises the
descriptive `ValueError` of line 323 naming `circular`; with `circular` valid,
an invalid `stationary` raises the error of line 336 naming `stationary`; and
every valid combination returns a boolean mask without error. -/
theorem claim_C7_source_mask (M : SnrModel) (srcs : List Src)
    (circular stationary : PyTri) :
    (circular = .pyOther →
      getSourceMask M srcs circular stationary
        = .error "`circular` must be None, True or False") ∧
    (circular ≠ .pyOther → stationary = .pyOther →
      getSourceMask M srcs circular stationary
        = .error "`stationary` must be None, True or False") ∧
    (circular ≠ .pyOther → stationary ≠ .pyOther →
      ∃ mask : List Bool, getSourceMask M srcs circular stationary = .ok mask) := by
  cases circular <;> cases stationary <;> simp [getSourceMask]

theorem claim_C7_witness :
    getSourceMask mW [srcW, srcW2] .pyOther .pyNone
      = .error "`circular` must be None, True or False" ∧
    getSourceMask mW [srcW, srcW2] .pyNone .pyOther
      = .error "`stationary` must be None, True or False" ∧
    ∃ mask : List Bool, getSourceMask mW [srcW, srcW2] .pyTrue .pyFalse = .ok mask :=
  ⟨(claim_C7_source_mask mW [srcW, srcW2] .pyOther .pyNone).1 rfl,
   (claim_C7_source_mask mW [srcW, srcW2] .pyNone .pyOther).2.1 (by simp) rfl,
   (claim_C7_source_mask mW [srcW, srcW2] .pyTrue .pyFalse).2.2 (by simp) (by simp)⟩

/-- `Source.set_sc` (lines 251-279): the sensitivity curve interpolated over
the log-spaced frequency grid of line 269 with `bounds_error=False,
fill_value=1e30` (lines 273-274).  The power spectral density values (computed
by `legwork.lisa`, not part of the reviewed sources) are abstracted as `psd`,
and the grid as any strictly increasing list running from `10⁻⁷` to `2` (the
endpoints of `np.logspace(-7, np.log10(2), 10000)`). -/
def scCurve (grid : List ℚ) (psd : ℚ → ℚ) (f : ℚ) : ℚ :=
  interp1d (grid.map (fun x => (x, psd x))) (10 ^ 30) (10 ^ 30) f

/-- Claim C8: every query frequency strictly outside the interpolated
sensitivity curve's grid range `[10⁻⁷, 2]` Hz gets the effectively-infinite
fill value `10³⁰` (per Hz) instead of an error. -/
theorem claim_C8_out_of_range (grid : List ℚ) (psd : ℚ → ℚ) (hne : grid ≠ [])
    (hsort : List.Chain' (· < ·) grid)
    (hhead : grid.head hne = 1 / 10 ^ 7) (hlast : grid.getLast hne = 2)
    (f : ℚ) (hf : f < 1 / 10 ^ 7 ∨ 2 < f) :
    scCurve grid psd f = 10 ^ 30 := by
  unfold scCurve
  rcases hf with hf | hf
  · cases grid with
    | nil => exact absurd rfl hne
    | cons g0 rest =>
      have hg0 : g0 = 1 / 10 ^ 7 := by simpa using hhead
      rw [List.map_cons]
      exact interp1d_below g0 (psd g0) _ _ _ f (by rw [hg0]; exact hf)
  · apply interp1d_above
    · cases grid with
      | nil => exact absurd rfl hne
      | cons g0 rest => simp
    · intro p hp
      obtain ⟨x, hx, rfl⟩ := List.mem_map.mp hp
      have hle : x ≤ grid.getLast hne := le_getLast_of_chain' grid hne hsort x hx
      show x < f
      rw [hlast] at hle
      linarith

theorem claim_C8_witness :
    scCurve [1/10^7, 1, 2] (fun _ => 1) 3 = 10 ^ 30 :=
  claim_C8_out_of_range [1/10^7, 1, 2] (fun _ => 1) (by simp)
    (List.chain'_cons.mpr ⟨by norm_num, List.chain'_cons.mpr
      ⟨by norm_num, List.chain'_singleton _⟩⟩)
    rfl rfl 3 (Or.inr (by norm_num))

/-- The `sc_params` dictionary (line 65-69, 132): each recognised option is
either supplied or absent. -/
structure ScParams where
  t_obs : Option ℚ
  L : Option ℚ
  fstar : Option ℚ
  approximate_R : Option Bool
  include_confusion_noise : Option Bool
deriving DecidableEq

/-- The `Source` state relevant to the sensitivity curve cache. -/
structure ScState where
  interpolate_sc : Bool
  sc_params : ScParams
  sc : Option (ℚ → ℚ)

/-- `Source.set_sc` (lines 251-279) as a state transition: when
`interpolate_sc` is set, rebuild the curve from the stored `_sc_params` (the
building itself — merging defaults, `lisa.power_spectral_density`,
interpolation — is abstracted as `buildSc`); otherwise leave `sc = None`. -/
def set_sc (buildSc : ScParams → (ℚ → ℚ)) (s : ScState) : ScState :=
  if s.interpolate_sc then { s with sc := some (buildSc s.sc_params) }
  else { s with sc := none }

/-- `Source.update_sc_params` (lines 281-290): only when the supplied
parameters differ from the cached `_sc_params` are they stored and the curve
re-interpolated.  The boolean records whether a rebuild happened. -/
def update_sc_params (buildSc : ScParams → (ℚ → ℚ)) (s : ScState) (p : ScParams) :
    ScState × Bool :=
  if p ≠ s.sc_params then (set_sc buildSc { s with sc_params := p }, true)
  else (s, false)

/-- Claim C9: `update_sc_params` rebuilds the sensitivity curve iff the
supplied configuration differs from the cached one; when they are equal, the
state — both the stored configuration and the curve callable — is left
completely unchanged, and when they differ the new configuration is stored and
the curve rebuilt from it. -/
theorem claim_C9_update_sc (buildSc : ScParams → (ℚ → ℚ)) (s : ScState) (p : ScParams) :
    ((update_sc_params buildSc s p).2 = true ↔ p ≠ s.sc_params) ∧
    (p = s.sc_params → update_sc_params buildSc s p = (s, false)) ∧
    (p ≠ s.sc_params →
      (update_sc_params buildSc s p).1.sc_params = p ∧
      (update_sc_params buildSc s p).1.sc
        = (if s.interpolate_sc then some (buildSc p) else none)) := by
  by_cases hp : p = s.sc_params <;>
    by_cases hi : s.interpolate_sc = true <;>
      simp [update_sc_params, set_sc, hp, hi]

def scpW : ScParams :=
  { t_obs := some 4, L := none, fstar := none, approximate_R := none,
    include_confusion_noise := some true }

def scsW : ScState := { interpolate_sc := true, sc_params := scpW, sc := some (fun _ => 1) }

theorem claim_C9_witness :
    update_sc_params (fun _ _ => 2) scsW scpW = (scsW, false) ∧
    ((update_sc_params (fun _ _ => 2) scsW { scpW with t_obs := some 8 }).1.sc_params
        = { scpW with t_obs := some 8 } ∧
      (update_sc_params (fun _ _ => 2) scsW { scpW with t_obs := some 8 }).1.sc
        = (if scsW.interpolate_sc then some ((fun _ _ => 2) { scpW with t_obs := some 8 })
           else none)) :=
  ⟨(claim_C9_update_sc (fun _ _ => 2) scsW scpW).2.1 rfl,
   (claim_C9_update_sc (fun _ _ => 2) scsW { scpW with t_obs := some 8 }).2.2
     (by simp [scpW, scsW])⟩

/-! ## `Source.__init__` (source.py lines 90-136) -/

/-- An astropy array argument: `hasUnits` models
`isinstance(·, u.quantity.Quantity)` (line 106). -/
structure QArr where
  vals : List ℚ
  hasUnits : Bool
deriving DecidableEq, Inhabited

/-- Modelled from the spec: `utils.get_f_orb_from_a`, `utils.get_a_from_f_orb`
and `utils.chirp_mass` live in `legwork/utils.py`, which is not part of the
reviewed sources; they are abstract function parameters here. -/
structure DeriveFns where
  fOrbFromA : QArr → QArr → QArr → QArr
  aFromFOrb : QArr → QArr → QArr → QArr
  chirpMass : QArr → QArr → QArr

/-- Derived-quantity computations `__init__` performs, in execution order. -/
inductive InitStep
  | deriveForb
  | deriveA
  | computeChirpMass
deriving DecidableEq

inductive InitError
  | missingForbAndA
  | assertUnits (name : String)
  | lengthMismatch
deriving DecidableEq

structure SourceState where
  m_1 : QArr
  m_2 : QArr
  m_c : QArr
  ecc : List ℚ
  dist : QArr
  f_orb : QArr
  a : QArr
deriving DecidableEq

/-- The assertion loop of lines 101-107: the first argument, in order, that is
not a `Quantity`. -/
def firstUntagged : List (QArr × String) → Option String
  | [] => none
  | (q, nm) :: rest => if q.hasUnits then firstUntagged rest else some nm

/-- Lines 101-136 of `__init__` once both `f_orb` and `a` are in hand: unit
assertions over `[m_1, m_2, dist, f_orb, a]` (lines 102-107), the array length
check against `m_1` (lines 113-118), then the chirp-mass computation (line
122) and attribute assignment.  The first component is the trace of
derived-quantity computations performed, in order. -/
def sourceInitCore (fns : DeriveFns) (m1 m2 : QArr) (ecc : List ℚ) (dist : QArr)
    (fo a : QArr) (tr : List InitStep) : List InitStep × Except InitError SourceState :=
  match firstUntagged [(m1, "m_1"), (m2, "m_2"), (dist, "dist"), (fo, "f_orb"), (a, "a")] with
  | some nm => (tr, .error (.assertUnits nm))
  | none =>
    if m2.vals.length ≠ m1.vals.length ∨ dist.vals.length ≠ m1.vals.length
        ∨ fo.vals.length ≠ m1.vals.length ∨ a.vals.length ≠ m1.vals.length
        ∨ ecc.length ≠ m1.vals.length
    then (tr, .error .lengthMismatch)
    else (tr ++ [.computeChirpMass],
      .ok { m_1 := m1, m_2 := m2, m_c := fns.chirpMass m1 m2, ecc := ecc,
            dist := dist, f_orb := fo, a := a })

/-- `Source.__init__` (lines 90-136): error when both `f_orb` and `a` are
missing (lines 94-95), then derivation of whichever of the two was not
supplied (lines 97-99, recorded in the trace), then `sourceInitCore`. -/
def sourceInit (fns : DeriveFns) (m1 m2 : QArr) (ecc : List ℚ) (dist : QArr)
    (fo a : Option QArr) : List InitStep × Except InitError SourceState :=
  match fo, a with
  | none, none => ([], .error .missingForbAndA)
  | none, some qa => sourceInitCore fns m1 m2 ecc dist (fns.fOrbFromA qa m1 m2) qa [.deriveForb]
  | some qf, none => sourceInitCore fns m1 m2 ecc dist qf (fns.aFromFOrb qf m1 m2) [.deriveA]
  | some qf, some qa => sourceInitCore fns m1 m2 ecc dist qf qa []

/-- The effective `(f_orb, a)` pair after lines 97-99. -/
def effPair (fns : DeriveFns) (m1 m2 : QArr) (fo a : Option QArr) : QArr × QArr :=
  match fo, a with
  | none, none => (default, default)
  | none, some qa => (fns.fOrbFromA qa m1 m2, qa)
  | some qf, none => (qf, fns.aFromFOrb qf m1 m2)
  | some qf, some qa => (qf, qa)

theorem firstUntagged_isSome :
    ∀ (l : List (QArr × String)), (∃ q ∈ l, q.1.hasUnits = false) →
      ∃ nm, firstUntagged l = some nm := by
  intro l
  induction l with
  | nil =>
    intro h
    obtain ⟨q, hq, _⟩ := h
    exact absurd hq (by simp)
  | cons p l ih =>
    intro h
    obtain ⟨q, hq, hunits⟩ := h
    obtain ⟨q0, nm0⟩ := p
    by_cases hu : q0.hasUnits = true
    · rcases List.mem_cons.mp hq with rfl | hq'
      · exact absurd hunits (by simp [hu])
      · obtain ⟨nm, hnm⟩ := ih ⟨q, hq', hunits⟩
        exact ⟨nm, by simpa [firstUntagged, hu] using hnm⟩
    · have hu' : q0.hasUnits = false := by simpa using hu
      exact ⟨nm0, by simp [firstUntagged, hu']⟩

theorem sourceInitCore_untagged (fns : DeriveFns) (m1 m2 : QArr) (ecc : List ℚ)
    (dist : QArr) (fo a : QArr) (tr : List InitStep)
    (h : m1.hasUnits = false ∨ m2.hasUnits = false ∨ dist.hasUnits = false
      ∨ fo.hasUnits = false ∨ a.hasUnits = false) :
    ∃ nm, sourceInitCore fns m1 m2 ecc dist fo a tr = (tr, .error (.assertUnits nm)) := by
  have hsome : ∃ nm, firstUntagged [(m1, "m_1"), (m2, "m_2"), (dist, "dist"),
      (fo, "f_orb"), (a, "a")] = some nm := by
    apply firstUntagged_isSome
    rcases h with h | h | h | h | h
    · exact ⟨(m1, "m_1"), by simp, h⟩
    · exact ⟨(m2, "m_2"), by simp, h⟩
    · exact ⟨(dist, "dist"), by simp, h⟩
    · exact ⟨(fo, "f_orb"), by simp, h⟩
    · exact ⟨(a, "a"), by simp, h⟩
  obtain ⟨nm, hnm⟩ := hsome
  refine ⟨nm, ?_⟩
  unfold sourceInitCore
  rw [hnm]

/-- Claim C6 (amended): if any of `m_1`, `m_2`, `dist`, or the effective
`f_orb` / `a` (after the missing one of the two is derived on lines 98-99)
lacks a unit tag, construction fails with the assertion error of lines 105-107
naming the first untagged argument, and this happens *before* the chirp mass
or any source attribute is computed.  However, when only one of `f_orb`/`a`
was supplied, the other is first derived from the inputs (lines 98-99)
**before** the unit assertions run — so the error is *not* raised before any
derived quantity is computed; see the counterexample.  When both are supplied,
no derivation precedes the assertions. -/
theorem claim_C6_units (fns : DeriveFns) (m1 m2 : QArr) (ecc : List ℚ) (dist : QArr)
    (fo a : Option QArr) (hsome : ¬(fo = none ∧ a = none))
    (huntag : m1.hasUnits = false ∨ m2.hasUnits = false ∨ dist.hasUnits = false
      ∨ (effPair fns m1 m2 fo a).1.hasUnits = false
      ∨ (effPair fns m1 m2 fo a).2.hasUnits = false) :
    (∃ nm, (sourceInit fns m1 m2 ecc dist fo a).2 = .error (.assertUnits nm)) ∧
    InitStep.computeChirpMass ∉ (sourceInit fns m1 m2 ecc dist fo a).1 ∧
    (fo ≠ none → a ≠ none → (sourceInit fns m1 m2 ecc dist fo a).1 = []) := by
  rcases fo with _ | qf <;> rcases a with _ | qa
  · exact absurd ⟨rfl, rfl⟩ hsome
  · obtain ⟨nm, hnm⟩ := sourceInitCore_untagged fns m1 m2 ecc dist
      (fns.fOrbFromA qa m1 m2) qa [.deriveForb] (by simpa [effPair] using huntag)
    simp only [sourceInit]
    rw [hnm]
    exact ⟨⟨nm, rfl⟩, by simp, fun hfo _ => absurd rfl hfo⟩
  · obtain ⟨nm, hnm⟩ := sourceInitCore_untagged fns m1 m2 ecc dist
      qf (fns.aFromFOrb qf m1 m2) [.deriveA] (by simpa [effPair] using huntag)
    simp only [sourceInit]
    rw [hnm]
    exact ⟨⟨nm, rfl⟩, by simp, fun _ ha => absurd rfl ha⟩
  · obtain ⟨nm, hnm⟩ := sourceInitCore_untagged fns m1 m2 ecc dist
      qf qa [] (by simpa [effPair] using huntag)
    simp only [sourceInit]
    rw [hnm]
    exact ⟨⟨nm, rfl⟩, by simp, fun _ _ => rfl⟩

def qU : QArr := { vals := [1], hasUnits := false }

def qT : QArr := { vals := [1], hasUnits := true }

def cexFns : DeriveFns :=
  { fOrbFromA := fun q _ _ => q
    aFromFOrb := fun q _ _ => q
    chirpMass := fun q _ => q }

/-- Claim C6 counterexample: with `m_1` untagged, `f_orb` supplied (tagged)
and `a` absent, construction does fail with the assertion error naming `m_1`,
but only *after* the semi-major axis — a derived quantity — has been computed
from the inputs on line 99 (derivation trace `[deriveA]` is non-empty),
refuting "raised before any derived quantity is computed from the inputs". -/
theorem claim_C6_counterexample :
    sourceInit cexFns qU qT [0] qT (some qT) none
      = ([InitStep.deriveA], .error (.assertUnits "m_1")) ∧
    (sourceInit cexFns qU qT [0] qT (some qT) none).1 ≠ [] := by
  constructor
  · rfl
  · show ([InitStep.deriveA] : List InitStep) ≠ []
    simp

theorem claim_C6_witness :
    (¬((some qT : Option QArr) = none ∧ (some qT : Option QArr) = none)) ∧
    ((∃ nm, (sourceInit cexFns qU qT [0] qT (some qT) (some qT)).2
        = .error (.assertUnits nm)) ∧
      InitStep.computeChirpMass ∉ (sourceInit cexFns qU qT [0] qT (some qT) (some qT)).1 ∧
      ((some qT : Option QArr) ≠ none → (some qT : Option QArr) ≠ none →
        (sourceInit cexFns qU qT [0] qT (some qT) (some qT)).1 = [])) := by
  have h1 : ¬((some qT : Option QArr) = none ∧ (some qT : Option QArr) = none) := by simp
  have h2 : qU.hasUnits = false ∨ qT.hasUnits = false ∨ qT.hasUnits = false
      ∨ (effPair cexFns qU qT (some qT) (some qT)).1.hasUnits = false
      ∨ (effPair cexFns qU qT (some qT) (some qT)).2.hasUnits = false := Or.inl rfl
  exact ⟨h1, claim_C6_units cexFns qU qT [0] qT (some qT) (some qT) h1 h2⟩
